import Mathlib

/-!
Shallow embedding of the change-scoped code-standards scanner of this
repository (`scripts/check-code-standards.js`, `scripts/generate-pr-comments.js`,
`scripts/post-pr-review.js` and the variant copies shipped next to them),
together with proofs about the embedded functions.

Source lines are `String`s, file contents are `List String`, JavaScript
regular expressions are rendered as bespoke character-list matchers
(deterministic where the regex backtracking is provably determinate), and
the fallible I/O surface (file reads, `git diff` invocations, review
posting) is passed in as an explicit environment record.
-/

namespace CIStd

/-- JavaScript whitespace class `\s`, restricted to its ASCII members
(space, tab, newline, carriage return, vertical tab, form feed); the
`c.toNat` form keeps all character reasoning in `Nat`. -/
def jsWs (c : Char) : Bool :=
  c.toNat = 32 || c.toNat = 9 || c.toNat = 10 || c.toNat = 13 ||
    c.toNat = 11 || c.toNat = 12

/-- JavaScript word class `\w`, i.e. `[A-Za-z0-9_]`. -/
def wordChar (c : Char) : Bool :=
  (48 ≤ c.toNat && c.toNat ≤ 57) || (65 ≤ c.toNat && c.toNat ≤ 90) ||
    (97 ≤ c.toNat && c.toNat ≤ 122) || c.toNat = 95

/-- Decimal digit class `\d`, i.e. `[0-9]`. -/
def digitChar (c : Char) : Bool :=
  48 ≤ c.toNat && c.toNat ≤ 57

/-- Space or tab, the `[ \t]` class used by the anchored declaration regexes. -/
def spaceTab (c : Char) : Bool :=
  c.toNat = 32 || c.toNat = 9

/-- Characters allowed in the return-type class `[A-Za-z0-9_[\]|<>]`. -/
def typeChar (c : Char) : Bool :=
  wordChar c || c.toNat = 91 || c.toNat = 93 || c.toNat = 124 ||
    c.toNat = 60 || c.toNat = 62

/-- `String.prototype.trim()` on a character list: drop leading whitespace. -/
def jsTrimL (l : List Char) : List Char := l.dropWhile jsWs

/-- `String.prototype.trim()` on a character list: drop trailing whitespace. -/
def jsTrimR (l : List Char) : List Char := (l.reverse.dropWhile jsWs).reverse

/-- `String.prototype.trim()` on a character list. -/
def jsTrimC (l : List Char) : List Char := jsTrimR (jsTrimL l)

/-- `String.prototype.trim()`. -/
def jsTrim (s : String) : String := ⟨jsTrimC s.data⟩

/-- `content.split('\n')`: split a file's text into its lines. -/
def splitLinesGo (cur : List Char) : List Char → List String
  | [] => [⟨cur.reverse⟩]
  | c :: r =>
      if c = '\n' then ⟨cur.reverse⟩ :: splitLinesGo [] r
      else splitLinesGo (c :: cur) r

/-- `content.split('\n')` on a whole string. -/
def splitLines (s : String) : List String := splitLinesGo [] s.data

/-- `String.prototype.includes(pat)`: substring search. -/
def containsSub (pat : List Char) : List Char → Bool
  | [] => pat.isPrefixOf ([] : List Char)
  | c :: r => pat.isPrefixOf (c :: r) || containsSub pat r

/-- `line.includes(pat)` on strings. -/
def strContains (s pat : String) : Bool := containsSub pat.data s.data

/-- Digits-to-number conversion underlying `parseInt` on an all-digit capture. -/
def digitsToNat (l : List Char) : Nat :=
  l.foldl (fun acc c => acc * 10 + (c.toNat - 48)) 0

/-- A line range reported by a diff hunk, the source's
`{ start, end }` object (`end` is a Lean keyword, rendered `stop`).
Inclusive, 1-indexed, in the new version of the file. -/
structure LineRange where
  start : Nat
  stop : Nat
deriving Repr, DecidableEq

/-- Attempt the hunk-header regex `@@ -\d+(?:,\d+)? \+(\d+)(?:,(\d+))? @@`
at the head of the character list, returning the two captures
(`newStart`, optional `newCount`).  The regex is determinate here: each
digit run is maximal because no digit can begin the following literal,
and a comma not followed by a digit cannot be repaired by backtracking. -/
def matchHunkAt (l : List Char) : Option (Nat × Option Nat) :=
  match "@@ -".data.isPrefixOf l, l.drop 4 with
  | false, _ => none
  | true, r0 =>
    let d1 := r0.takeWhile digitChar
    if d1 = [] then none else
    let r1 := r0.dropWhile digitChar
    let r2 :=
      match r1 with
      | ',' :: t =>
          let d2 := t.takeWhile digitChar
          if d2 = [] then none else some (t.dropWhile digitChar)
      | _ => some r1
    match r2 with
    | none => none
    | some r2 =>
      match " +".data.isPrefixOf r2, r2.drop 2 with
      | false, _ => none
      | true, r3 =>
        let d3 := r3.takeWhile digitChar
        if d3 = [] then none else
        let r4 := r3.dropWhile digitChar
        match r4 with
        | ',' :: t =>
            let d4 := t.takeWhile digitChar
            if d4 = [] then none else
            if " @@".data.isPrefixOf (t.dropWhile digitChar) then
              some (digitsToNat d3, some (digitsToNat d4))
            else none
        | _ =>
            if " @@".data.isPrefixOf r4 then some (digitsToNat d3, none)
            else none

/-- Leftmost match of the hunk-header regex anywhere in the list
(JavaScript `line.match(...)` is unanchored). -/
def findHunkMatch : List Char → Option (Nat × Option Nat)
  | [] => none
  | c :: r =>
    match matchHunkAt (c :: r) with
    | some x => some x
    | none => findHunkMatch r

/-- `line.match(/@@ -\d+(?:,\d+)? \+(\d+)(?:,(\d+))? @@/)` with its two
captures parsed by `parseInt`. -/
def parseHunkLine (s : String) : Option (Nat × Option Nat) :=
  findHunkMatch s.data

/-- `line.startsWith(pat)`. -/
def strStartsWith (s pat : String) : Bool := pat.data.isPrefixOf s.data

/-- The body of `getChangedLineRanges`' `for` loop: walk the diff lines
keeping the `currentLine` cursor, pushing one range per hunk header.
`count` is `parseInt(hunkMatch[2]) || 1`, so an absent capture (`NaN`)
and a zero capture both fall back to `1`. -/
def rangesLoop : List String → Nat → List LineRange
  | [], _ => []
  | l :: rest, cur =>
    match parseHunkLine l with
    | some (c, dopt) =>
      let count := match dopt with
        | some d => if d = 0 then 1 else d
        | none => 1
      ⟨c, c + count - 1⟩ :: rangesLoop rest c
    | none =>
      if !strStartsWith l "-" && !strStartsWith l "\\" && !strStartsWith l "+++" then
        rangesLoop rest (cur + 1)
      else
        rangesLoop rest cur

/-- `getChangedLineRanges` applied to the text of a successful
`git diff -U0` invocation (the `catch` branch of the source returns `[]`
and is modelled at the environment level by `getChangedLineRangesE`). -/
def getChangedLineRanges (diff : String) : List LineRange :=
  rangesLoop (splitLines diff) 0

/-- The per-hunk range as the amended claim describes it: `{c, c+d-1}`
for an explicit count `d ≥ 1`, and `{c, c}` when the count is `0` or
omitted. -/
def hunkRangeSpec : Nat × Option Nat → LineRange
  | (c, some 0) => ⟨c, c⟩
  | (c, some (d + 1)) => ⟨c, c + d⟩
  | (c, none) => ⟨c, c⟩

/-- `lines[p]` for a non-negative index; every use in the embedding is
guarded to be in range exactly as in the source. -/
def lineAt (lines : List String) (p : Nat) : String := lines.getD p ""

/-- `lines[j].trim() === ''`. -/
def isBlankLine (s : String) : Bool := jsTrimC s.data = []

/-- Decorator test `/^\s*@[A-Z]\w+\s*[\({]/`: at-sign, an upper-case
letter, one or more further word characters, optional whitespace, then an
opening parenthesis or brace. -/
def isDecoratorLine (s : String) : Bool :=
  match jsTrimL s.data with
  | '@' :: c :: rest =>
      (65 ≤ c.toNat && c.toNat ≤ 90) &&
        decide (rest.takeWhile wordChar ≠ []) &&
        (match (rest.dropWhile wordChar).dropWhile jsWs with
         | '(' :: _ => true
         | '\x7b' :: _ => true
         | _ => false)
  | _ => false

/-- Single-line documentation test `/^\s*\/\*\*.*\*\/\s*$/`. -/
def isSingleLineJsDocLine (s : String) : Bool :=
  let t := jsTrimL s.data
  "/**".data.isPrefixOf t && "*/".data.isSuffixOf (jsTrimR (t.drop 3))

/-- The combined `/^\s*\*\/\s*$/ || /^\s*\*\s*/` test: the first
non-whitespace character is a star. -/
def starLine (s : String) : Bool :=
  match jsTrimL s.data with
  | c :: _ => c == '*'
  | [] => false

/-- Documentation-opening test `/^\s*\/\*\*/`. -/
def jsdocStartLine (s : String) : Bool :=
  "/**".data.isPrefixOf (jsTrimL s.data)

/-- Any-comment-opening test `/^\s*\/\*/`. -/
def blockStartLine (s : String) : Bool :=
  "/*".data.isPrefixOf (jsTrimL s.data)

/-- Closing-marker test `/\*\/\s*$/` used by the forward scan. -/
def closesBlockLine (s : String) : Bool :=
  "*/".data.isSuffixOf (jsTrimR s.data)

/-- The `while (j >= 0 && lines[j].trim() === '') j--;` loop.  Positions
are encoded as `pos = j + 1` so that `0` stands for the exhausted `j = -1`;
the second component records every index read, as the JavaScript `lines[j]`
access, for the access-safety claim. -/
def skipBlanksP (lines : List String) : Nat → Nat × List Int
  | 0 => (0, [])
  | p + 1 =>
      if isBlankLine (lineAt lines p) then
        let r := skipBlanksP lines p
        (r.1, (p : Int) :: r.2)
      else (p + 1, [(p : Int)])

/-- The decorator-skipping loop `while (j >= 0 && /^\s*@[A-Z]\w+\s*[\({]/.test(lines[j])) j--;`. -/
def skipDecorsP (lines : List String) : Nat → Nat × List Int
  | 0 => (0, [])
  | p + 1 =>
      if isDecoratorLine (lineAt lines p) then
        let r := skipDecorsP lines p
        (r.1, (p : Int) :: r.2)
      else (p + 1, [(p : Int)])

/-- The prologue of `getJsDocInfo`: set `j = index - 1`, then skip blanks,
a contiguous decorator run, and blanks again.  Result `none` models the
`TypeError` the source throws when `index - 1` is at or beyond the array
end (`lines[j]` is `undefined` and `.trim()` faults); otherwise
`some pos` is the landing position in the `pos = j + 1` encoding. -/
def afterSkipsR (lines : List String) (index : Int) : Option Nat × List Int :=
  if index ≤ 0 then (some 0, [])
  else if (lines.length : Int) < index then (none, [index - 1])
  else
    let r1 := skipBlanksP lines index.toNat
    let r2 := skipDecorsP lines r1.1
    let r3 := skipBlanksP lines r2.1
    (some r3.1, r1.2 ++ r2.2 ++ r3.2)

/-- The backward walk from a block-closing or mid-block line: find the
`/**` opener, rejecting if a non-documentation `/*` opener comes first. -/
def walkBackP (lines : List String) : Nat → Option Nat × List Int
  | 0 => (none, [])
  | p + 1 =>
      let l := lineAt lines p
      if jsdocStartLine l then (some p, [(p : Int)])
      else if blockStartLine l then (none, [(p : Int)])
      else
        let r := walkBackP lines p
        (r.1, (p : Int) :: r.2)

/-- The forward scan
`while (endIdx < lines.length && !/\*\/\s*$/.test(lines[endIdx])) endIdx++;`. -/
def scanFwdGo : List String → Nat → Nat × List Int
  | [], e => (e, [])
  | l :: rest, e =>
      if closesBlockLine l then (e, [(e : Int)])
      else
        let r := scanFwdGo rest (e + 1)
        (r.1, (e : Int) :: r.2)

/-- Forward scan entry point starting at line `j`. -/
def scanFwdP (lines : List String) (j : Nat) : Nat × List Int :=
  scanFwdGo (lines.drop j) j

/-- `lines.slice(s, e + 1).join('\n')`. -/
def sliceJoin (lines : List String) (s e : Nat) : String :=
  String.intercalate "\n" ((lines.drop s).take (e + 1 - s))

/-- The source's JSDoc info record
`{ exists, isSingleLine, startIdx, endIdx, content }` (`exists` is a Lean
keyword, rendered `exists_`). -/
structure JsDocInfo where
  exists_ : Bool
  isSingleLine : Bool
  startIdx : Int
  endIdx : Int
  content : String
deriving Repr, DecidableEq

/-- The `{ exists: false, isSingleLine: false, startIdx: -1, endIdx: -1, content: '' }`
record. -/
def jsDocNone : JsDocInfo := ⟨false, false, -1, -1, ""⟩

/-- `getJsDocInfo(lines, index)` with the list of indices read.  The first
component is `none` exactly when the source would throw (see
`afterSkipsR`). -/
def getJsDocInfoR (lines : List String) (index : Int) : Option JsDocInfo × List Int :=
  match afterSkipsR lines index with
  | (none, acc) => (none, acc)
  | (some 0, acc) => (some jsDocNone, acc)
  | (some (j + 1), acc) =>
    let line := lineAt lines j
    let acc := acc ++ [(j : Int)]
    if isSingleLineJsDocLine line then
      (some ⟨true, true, (j : Int), (j : Int), line⟩, acc)
    else if starLine line then
      match walkBackP lines (j + 1) with
      | (some s, acc2) =>
          (some ⟨true, false, (s : Int), (j : Int), sliceJoin lines s j⟩, acc ++ acc2)
      | (none, acc2) => (some jsDocNone, acc ++ acc2)
    else if jsdocStartLine line then
      if isSingleLineJsDocLine line then
        (some ⟨true, true, (j : Int), (j : Int), line⟩, acc)
      else
        let r := scanFwdP lines j
        (some ⟨true, false, (j : Int), (r.1 : Int), sliceJoin lines j r.1⟩, acc ++ r.2)
    else
      (some jsDocNone, acc)

/-- `getJsDocInfo(lines, index)`, result only. -/
def getJsDocInfo (lines : List String) (index : Int) : Option JsDocInfo :=
  (getJsDocInfoR lines index).1

/-- The `exists` field of the located block (`false` when the source would
throw). -/
def jsDocExistsAt (lines : List String) (index : Int) : Bool :=
  match getJsDocInfo lines index with
  | some i => i.exists_
  | none => false

/-- The parameter-object `{ name, type }` of `extractParams`. -/
structure ParamSig where
  name : String
  type : String
deriving Repr, DecidableEq

/-- Scan to the first `)`, collecting the `[^)]*` body; `none` when the
list holds no `)`. -/
def takeUntilRParen : List Char → Option (List Char)
  | [] => none
  | c :: r => if c = ')' then some [] else (takeUntilRParen r).map (c :: ·)

/-- The leftmost match of `/\(([^)]*)\)/`.  If the first `(` has no `)`
after it, no later `(` has one either, so the regex fails and the search
can stop at the first `(`. -/
def findParenGroupGo : List Char → Option (List Char)
  | [] => none
  | c :: r => if c = '(' then takeUntilRParen r else findParenGroupGo r

/-- `line.match(/\(([^)]*)\)/)`, capture 1. -/
def findParenGroup (s : String) : Option String :=
  (findParenGroupGo s.data).map (⟨·⟩)

/-- Depth-increasing characters `<`, `(`, `{` of the comma splitter. -/
def isOpenBr (c : Char) : Bool := c = '<' || c = '(' || c = '\x7b'

/-- Depth-decreasing characters `>`, `)`, `}` of the comma splitter. -/
def isCloseBr (c : Char) : Bool := c = '>' || c = ')' || c = '\x7d'

/-- The comma-splitting loop of `extractParams`: walk the characters
keeping a bracket depth, and at every depth-zero comma push the trimmed
current segment if it is non-blank. -/
def splitSegsGo : List Char → Int → List Char → List String → List String
  | [], _, current, acc =>
      if jsTrimC current.reverse ≠ [] then acc ++ [⟨jsTrimC current.reverse⟩] else acc
  | c :: r, depth, current, acc =>
      if isOpenBr c then splitSegsGo r (depth + 1) (c :: current) acc
      else if isCloseBr c then splitSegsGo r (depth - 1) (c :: current) acc
      else if c = ',' ∧ depth = 0 then
        if jsTrimC current.reverse ≠ [] then
          splitSegsGo r depth [] (acc ++ [⟨jsTrimC current.reverse⟩])
        else splitSegsGo r depth [] acc
      else splitSegsGo r depth (c :: current) acc

/-- Leftmost match of `/\}\s*:\s*(\S+)/`: the declared type of a
destructuring parameter. -/
def destructTypeGo : List Char → Option (List Char)
  | [] => none
  | c :: r =>
      (if c = '\x7d' then
        match r.dropWhile jsWs with
        | ':' :: r2 =>
            let cap := (r2.dropWhile jsWs).takeWhile (fun d => !jsWs d)
            if cap ≠ [] then some cap else none
        | _ => none
      else none).orElse (fun _ => destructTypeGo r)

/-- `str.split(sep)` for a one-character separator. -/
def splitOnCharGo (sep : Char) (cur : List Char) : List Char → List (List Char)
  | [] => [cur.reverse]
  | c :: r =>
      if c = sep then cur.reverse :: splitOnCharGo sep [] r
      else splitOnCharGo sep (c :: cur) r

/-- `.replace(/^\?/, '').replace(/\?$/, '')`: strip one leading and one
trailing optional marker. -/
def stripOptMarks (l : List Char) : List Char :=
  let l1 := match l with
    | '?' :: r => r
    | other => other
  if l1.getLast? = some '?' then l1.dropLast else l1

/-- Per-segment parsing of `extractParams`: a segment opening with `{`
becomes the `destructured` sentinel with the type named after the closing
brace; otherwise the name is the text before the first colon (optional
markers stripped) and the type the text after it, cut at the first `=`,
with `unknown` when absent or empty. -/
def mkSig (p : String) : ParamSig :=
  if strStartsWith (jsTrim p) "\x7b" then
    match destructTypeGo p.data with
    | some t => ⟨"destructured", ⟨t⟩⟩
    | none => ⟨"destructured", "unknown"⟩
  else
    let parts := splitOnCharGo ':' [] p.data
    let name : String := ⟨stripOptMarks (jsTrimC (parts.headD []))⟩
    let ty : String :=
      match parts.drop 1 with
      | [] => "unknown"
      | p1 :: _ =>
          if p1 = [] then "unknown"
          else ⟨jsTrimC ((splitOnCharGo '=' [] p1).headD [])⟩
    ⟨name, ty⟩

/-- `extractParams(line)`: first parenthesized group, trimmed; empty means
no parameters; otherwise split at depth-zero commas, parse each segment,
and drop entries whose name ended up falsy (empty). -/
def extractParams (line : String) : List ParamSig :=
  match findParenGroup line with
  | none => []
  | some g =>
      let paramsStr := jsTrim g
      if paramsStr.data = [] then []
      else ((splitSegsGo paramsStr.data 0 [] []).map mkSig).filter (fun p => p.name ≠ "")

/-- Depth-zero comma segments of a character list, specified directly as
a recursive split: raw (untrimmed) segments between the commas that sit at
bracket depth zero. -/
def dzSegs : List Char → Int → List (List Char)
  | [], _ => [[]]
  | c :: r, depth =>
      if c = ',' ∧ depth = 0 then [] :: dzSegs r depth
      else
        match dzSegs r (depth + (if isOpenBr c then 1 else 0) - (if isCloseBr c then 1 else 0)) with
        | s :: rest => (c :: s) :: rest
        | [] => [[c]]

/-- Prepend a segment prefix onto the first segment of a split. -/
def consFirst (pre : List Char) : List (List Char) → List (List Char)
  | g :: rest => (pre ++ g) :: rest
  | [] => [pre]

/-- Trim each raw segment and drop the blank ones, as strings. -/
def segStrs (gs : List (List Char)) : List String :=
  (gs.map (fun l => (⟨jsTrimC l⟩ : String))).filter (fun t => t ≠ "")

/-- Head whitespace test. -/
def headIsWs : List Char → Bool
  | c :: _ => jsWs c
  | [] => false

/-- Head word-character refutation (`\b` at the end of a tag pattern). -/
def headNotWord : List Char → Bool
  | c :: _ => !wordChar c
  | [] => true

/-- `getAccessModifier(line)`: the leading `public`/`private`/`protected`
keyword when followed by a whitespace character, per
`/^\s*(public|private|protected)\s/`. -/
def getAccessModifier (line : String) : Option String :=
  let t := jsTrimL line.data
  if "public".data.isPrefixOf t && headIsWs (t.drop 6) then some "public"
  else if "private".data.isPrefixOf t && headIsWs (t.drop 7) then some "private"
  else if "protected".data.isPrefixOf t && headIsWs (t.drop 9) then some "protected"
  else none

/-- Search for `pat` at any position, followed by a word boundary (end of
string or a non-word character), as in `/@public\b/`. -/
def searchTagB (pat : List Char) : List Char → Bool
  | [] => false
  | c :: r =>
      (pat.isPrefixOf (c :: r) && headNotWord ((c :: r).drop pat.length)) ||
        searchTagB pat r

/-- The `{ valid, message }` result of `checkAccessModifierTag`. -/
structure AccessCheck where
  valid : Bool
  message : String
deriving Repr, DecidableEq

/-- `checkAccessModifierTag(jsDocContent, actualModifier)`: skipped when
the line has no modifier; otherwise the block must carry exactly one of
`@public`/`@private`/`@protected`, matching the code. -/
def checkAccessModifierTag (jsDocContent : String) (actualModifier : Option String) :
    AccessCheck :=
  match actualModifier with
  | none => ⟨true, ""⟩
  | some m =>
    let hasPublicTag := searchTagB "@public".data jsDocContent.data
    let hasPrivateTag := searchTagB "@private".data jsDocContent.data
    let hasProtectedTag := searchTagB "@protected".data jsDocContent.data
    let tagCount := (if hasPublicTag then 1 else 0) + (if hasPrivateTag then 1 else 0) +
      (if hasProtectedTag then 1 else 0)
    if tagCount = 0 then ⟨false, "Missing @" ++ m ++ " tag in JSDoc"⟩
    else if tagCount > 1 then ⟨false, "Multiple access modifier tags in JSDoc"⟩
    else if m = "public" ∧ hasPublicTag = false then
      ⟨false, "JSDoc should have @public (method is public)"⟩
    else if m = "private" ∧ hasPrivateTag = false then
      ⟨false, "JSDoc should have @private (method is private)"⟩
    else if m = "protected" ∧ hasProtectedTag = false then
      ⟨false, "JSDoc should have @protected (method is protected)"⟩
    else ⟨true, ""⟩

/-- Global replace of `/\/\*\*|\*\//g` with `''`: at each position the
alternation tries `/**` first, then `*/`; on a match the scan resumes
after the removed text. -/
def stripDocDelims : List Char → List Char
  | '/' :: '*' :: '*' :: r => stripDocDelims r
  | '*' :: '/' :: r => stripDocDelims r
  | c :: r => c :: stripDocDelims r
  | [] => []

/-- `checkSingleLineJsDoc(jsDocInfo, propertyType)`: a format error for a
non-single-line block, and an emptiness error for a single-line block
whose delimiter-stripped text trims to nothing. -/
def checkSingleLineJsDoc (jsDocInfo : JsDocInfo) (propertyType : String) : List String :=
  (if jsDocInfo.isSingleLine = false then
      [propertyType ++ " should have single-line JSDoc (/** ... */), not multi-line"]
    else []) ++
  (if jsDocInfo.isSingleLine = true ∧ jsTrimC (stripDocDelims jsDocInfo.content.data) = [] then
      [propertyType ++ " JSDoc is empty - add a description"]
    else [])

/-- ASCII upper-case letter test. -/
def isUpperAscii (c : Char) : Bool := 65 ≤ c.toNat && c.toNat ≤ 90

/-- ASCII case-insensitive character equality, the `i` flag's folding on
the identifier characters this checker meets. -/
def ciEqc (a b : Char) : Bool :=
  a == b || (isUpperAscii a && b.toNat == a.toNat + 32) ||
    (isUpperAscii b && a.toNat == b.toNat + 32)

/-- Case-insensitive literal strip: remainder after `pat`, or `none`. -/
def ciStrip : List Char → List Char → Option (List Char)
  | [], s => some s
  | _ :: _, [] => none
  | p :: ps, c :: cs => if ciEqc p c then ciStrip ps cs else none

/-- Case-insensitive list equality. -/
def listCiEq : List Char → List Char → Bool
  | [], [] => true
  | a :: as, b :: bs => ciEqc a b && listCiEq as bs
  | _, _ => false

/-- Scan up to the first occurrence of `stop`, returning the part before
it and the part after it. -/
def takeUntilChar (stop : Char) : List Char → Option (List Char × List Char)
  | [] => none
  | c :: r =>
      if c = stop then some ([], r)
      else (takeUntilChar stop r).map (fun pr => (c :: pr.1, pr.2))

/-- Head whitespace-or-hyphen test, the `[\s\-]` class. -/
def headIsWsOrDash : List Char → Bool
  | c :: _ => jsWs c || c = '-'
  | [] => false

/-- The optional `\[?`: consume one leading `[` when present. -/
def skipLBracket : List Char → List Char
  | '[' :: t => t
  | r => r

/-- The optional `\]?`: consume one leading `]` when present. -/
def skipRBracket : List Char → List Char
  | ']' :: t => t
  | r => r

/-- The trailing `\]?[\s\-]` of the per-parameter regex: with a leading
`]` the next character decides, otherwise the head itself must be
whitespace or a hyphen (a `]` that fails its follow-up cannot be repaired
by leaving the optional unconsumed, since `]` is neither). -/
def paramTailOk : List Char → Bool
  | ']' :: t => headIsWsOrDash t
  | r => headIsWsOrDash r

/-- The optional brace group `(\{[^}]*\})?`: on a leading `{` the group
must close (an unclosed `{` cannot be skipped, because the following
`\[?NAME` starts with `[` or a word character). -/
def braceGroup : List Char → Option (Option (List Char) × List Char)
  | '\x7b' :: t =>
      (takeUntilChar '\x7d' t).map fun pr =>
        (some ('\x7b' :: pr.1 ++ ['\x7d']), pr.2)
  | r => some (none, r)

/-- Attempt of the per-parameter regex
`@param\s+(\{[^}]*\})?\s*\[?NAME\]?[\s\-]` (flag `i`) at the head of the
list, returning the optional brace-group capture on success.  The regex
is determinate here: every quantifier is followed by a character its own
class excludes, and each unconsumed optional needs a character the next
literal refuses. -/
def matchParamAt (name : List Char) (s : List Char) : Option (Option (List Char)) :=
  (ciStrip "@param".data s).bind fun r0 =>
    if r0.takeWhile jsWs = [] then none
    else
      (braceGroup (r0.dropWhile jsWs)).bind fun gr =>
        let r4 := skipLBracket (gr.2.dropWhile jsWs)
        (ciStrip name r4).bind fun r5 =>
          if paramTailOk r5 then some gr.1 else none

/-- Leftmost match of the per-parameter regex, as
`jsDocContent.match(paramNameRegex)`. -/
def searchParamTag (name : List Char) : List Char → Option (Option (List Char))
  | [] => none
  | c :: r =>
      match matchParamAt name (c :: r) with
      | some g => some g
      | none => searchParamTag name r

/-- Attempt of the global scan regex
`@param\s*(?:\{[^}]*\})?\s*\[?(\w+)\]?` (case-sensitive) at the head of
the list, returning the captured name and the remainder after the match. -/
def matchGlobalAt (s : List Char) : Option (List Char × List Char) :=
  if "@param".data.isPrefixOf s then
    (braceGroup ((s.drop 6).dropWhile jsWs)).bind fun gr =>
      let r4 := skipLBracket (gr.2.dropWhile jsWs)
      let w := r4.takeWhile wordChar
      if w = [] then none
      else some (w, skipRBracket (r4.dropWhile wordChar))
  else none

/-- `[...jsDocContent.matchAll(/@param\s*(?:\{[^}]*\})?\s*\[?(\w+)\]?/g)]`:
repeated scanning, resuming after each match.  The fuel argument only
bounds the recursion; every step consumes at least one character, so
`s.length` fuel is always enough. -/
def matchAllParamsGo : Nat → List Char → List String
  | 0, _ => []
  | _ + 1, [] => []
  | fuel + 1, c :: r =>
      match matchGlobalAt (c :: r) with
      | some (w, rest) => (⟨w⟩ : String) :: matchAllParamsGo fuel rest
      | none => matchAllParamsGo fuel r

/-- The names captured by the global `@param` scan. -/
def jsDocParamNames (s : String) : List String :=
  matchAllParamsGo s.data.length s.data

/-- The `{ valid, errors }` result of `checkParamTags`. -/
structure ParamCheck where
  valid : Bool
  errors : List String
deriving Repr, DecidableEq

/-- `checkParamTags(jsDocContent, params)`: per declared parameter
(destructured ones skipped) a missing-tag or missing-type error, then per
documented name with no matching declared parameter an extra-tag error. -/
def checkParamTags (jsDocContent : String) (params : List ParamSig) : ParamCheck :=
  if params.length = 0 then ⟨true, []⟩
  else
    let errs1 := params.foldl (fun acc param =>
      if param.name = "destructured" then acc
      else
        match searchParamTag param.name.data jsDocContent.data with
        | none => acc ++ ["Missing @param for \x27" ++ param.name ++ "\x27"]
        | some grp =>
            let hasTypeInBraces := match grp with
              | some g => decide (g.length > 2)
              | none => false
            if hasTypeInBraces then acc
            else acc ++ ["@param " ++ param.name ++ " missing \x7bType\x7d in curly braces"]) []
    let docNames := jsDocParamNames jsDocContent
    let actualParamNames := (params.filter (fun p => p.name ≠ "destructured")).map (·.name)
    let errs2 := docNames.foldl (fun acc docParam =>
      if actualParamNames.contains docParam then acc
      else acc ++
        ["Extra @param \x27" ++ docParam ++ "\x27 in JSDoc doesn\x27t match any function parameter"]) errs1
    ⟨errs2.isEmpty, errs2⟩

/-- A canonical well-formed documentation block with exactly one
parameter tag `@param {τ} m - the value`, used to state the
renamed-parameter claim. -/
def mkParamDoc (τ m : String) : String :=
  "/**\n * Description.\n * @param \x7b" ++ τ ++ "\x7d " ++ m ++ " - the value\n */"

/-- Identifier shape: non-empty and all word characters. -/
def isIdentStr (s : String) : Bool :=
  !s.data.isEmpty && s.data.all wordChar

/-- `/@returns?\s|\@returns?\s*$/m`: an occurrence of `@return`, optional
`s`, followed by a whitespace character or the end of the text (the
multiline `$` accepts a following newline, itself whitespace). -/
def hasReturnsTagGo : List Char → Bool
  | [] => false
  | c :: r =>
      (if "@return".data.isPrefixOf (c :: r) then
        match (c :: r).drop 7 with
        | 's' :: r2 => r2.isEmpty || headIsWs r2
        | rest => rest.isEmpty || headIsWs rest
      else false) || hasReturnsTagGo r

/-- `hasReturnsTag(jsDocContent)`. -/
def hasReturnsTag (s : String) : Bool := hasReturnsTagGo s.data

/-- The tail of the method regex after the optional visibility keyword:
`[a-zA-Z0-9_]+\s*\([^)]*\)\s*:\s*[A-Za-z0-9_[\]|<>]+[ \t]*\{`. -/
def methodCore (l : List Char) : Bool :=
  decide (l.takeWhile wordChar ≠ []) &&
    (match (l.dropWhile wordChar).dropWhile jsWs with
     | '(' :: r2 =>
         (match takeUntilChar ')' r2 with
          | some (_, r3) =>
              (match r3.dropWhile jsWs with
               | ':' :: r5 =>
                   let r6 := r5.dropWhile jsWs
                   decide (r6.takeWhile typeChar ≠ []) &&
                     (match (r6.dropWhile typeChar).dropWhile spaceTab with
                      | '\x7b' :: _ => true
                      | _ => false)
               | _ => false)
          | none => false)
     | _ => false)

/-- The anchored method regex
`/^[ \t]*(public|private|protected)?[ \t]*[a-zA-Z0-9_]+\s*\([^)]*\)\s*:\s*[A-Za-z0-9_[\]|<>]+[ \t]*\{/`,
attempted with and without each visibility keyword, as the optional group
backtracks. -/
def methodRegexTest (s : String) : Bool :=
  let t := s.data.dropWhile spaceTab
  methodCore t ||
    ("public".data.isPrefixOf t && methodCore ((t.drop 6).dropWhile spaceTab)) ||
    ("private".data.isPrefixOf t && methodCore ((t.drop 7).dropWhile spaceTab)) ||
    ("protected".data.isPrefixOf t && methodCore ((t.drop 9).dropWhile spaceTab))

/-- One factory alternative of the reactive search: the factory name then
`\s*[<(]`. -/
def tryFactory (f : String) (l : List Char) : Bool :=
  f.data.isPrefixOf l &&
    (match (l.drop f.data.length).dropWhile jsWs with
     | '<' :: _ => true
     | '(' :: _ => true
     | _ => false)

/-- The unanchored `/=\s*(computed|signal|input|output|viewChild)\s*[<(]/`
search that filters reactive properties out of the method check. -/
def angularReactiveGo : List Char → Bool
  | [] => false
  | c :: r =>
      (if c = '=' then
        let r2 := r.dropWhile jsWs
        tryFactory "computed" r2 || tryFactory "signal" r2 || tryFactory "input" r2 ||
          tryFactory "output" r2 || tryFactory "viewChild" r2
      else false) || angularReactiveGo r

/-- `isAngularReactive` on a whole line. -/
def angularReactive (s : String) : Bool := angularReactiveGo s.data

/-- The unanchored `/:\s*[A-Za-z0-9_[\]|<>]+/` return-type presence test. -/
def hasRetTypeGo : List Char → Bool
  | [] => false
  | c :: r =>
      (if c = ':' then
        match r.dropWhile jsWs with
        | d :: _ => typeChar d
        | [] => false
      else false) || hasRetTypeGo r

/-- `/:\s*[A-Za-z0-9_[\]|<>]+/.test(line)`. -/
def hasRetType (s : String) : Bool := hasRetTypeGo s.data

/-- The unanchored `/(public|private|protected)/.test(line)` used by the
reactive-property access checks. -/
def hasAccessKeywordGo : List Char → Bool
  | [] => false
  | c :: r =>
      "public".data.isPrefixOf (c :: r) || "private".data.isPrefixOf (c :: r) ||
        "protected".data.isPrefixOf (c :: r) || hasAccessKeywordGo r

/-- `hasAccess` on a whole line. -/
def hasAccessKeyword (s : String) : Bool := hasAccessKeywordGo s.data

/-- `=\s*FACTORY(\.required)?\s*[<(]`, the common tail of the
reactive-property regexes after the identifier (`.required` only where
the regex allows it; an unconsumed `.required` cannot be repaired, since
`.` is neither whitespace nor `<` nor `(`). -/
def factoryTail (factory : String) (allowRequired : Bool) : List Char → Bool
  | '=' :: r2 =>
      let r3 := r2.dropWhile jsWs
      factory.data.isPrefixOf r3 &&
        (let r4 := r3.drop factory.data.length
         let r5 := if allowRequired && ".required".data.isPrefixOf r4 then r4.drop 9 else r4
         match r5.dropWhile jsWs with
         | '<' :: _ => true
         | '(' :: _ => true
         | _ => false)
  | _ => false

/-- `[a-zA-Z0-9_]+\s*=\s*FACTORY(\.required)?\s*[<(]`, the identifier and
tail of the enhanced generator's reactive regexes. -/
def reactiveCore (factory : String) (allowRequired : Bool) (l : List Char) : Bool :=
  decide (l.takeWhile wordChar ≠ []) &&
    factoryTail factory allowRequired ((l.dropWhile wordChar).dropWhile jsWs)

/-- The alternatives of the optional visibility group, each at the
position right after the group. -/
def optVis (t : List Char) : List (List Char) :=
  [t] ++ (if "public".data.isPrefixOf t then [t.drop 6] else []) ++
    (if "private".data.isPrefixOf t then [t.drop 7] else []) ++
    (if "protected".data.isPrefixOf t then [t.drop 9] else [])

/-- The alternatives of an optional keyword group. -/
def optKw (kw : String) (t : List Char) : List (List Char) :=
  [t] ++ (if kw.data.isPrefixOf t then [t.drop kw.data.length] else [])

/-- The enhanced generator's reactive regexes
`^[ \t]*(public|private|protected)?[ \t]*(readonly)?[ \t]*IDENT\s*=\s*FACTORY(\.required)?\s*[<(]`
(the `readonly` group only where the regex has one), attempted over all
combinations of the optional keyword groups. -/
def reactiveTestEnh (factory : String) (withReadonly allowRequired : Bool) (s : String) :
    Bool :=
  let t := s.data.dropWhile spaceTab
  (optVis t).any fun t1 =>
    let t1' := t1.dropWhile spaceTab
    let cands := if withReadonly then optKw "readonly" t1' else [t1']
    cands.any fun t2 => reactiveCore factory allowRequired (t2.dropWhile spaceTab)

/-- A pull-request review comment `{ path, line, body }`. -/
structure PrComment where
  path : String
  line : Nat
  body : String
deriving Repr, DecidableEq

/-- `isLineChanged(lineNum, changedRanges)`: the changed-only window. -/
def isLineChanged (lineNum : Nat) (changedRanges : List LineRange) : Bool :=
  changedRanges.any fun r => decide (r.start ≤ lineNum) && decide (lineNum ≤ r.stop)

/-- `isNearChangedLine(lineNum, changedRanges)`: the near-changed window,
five lines past each range's end. -/
def isNearChangedLine (lineNum : Nat) (changedRanges : List LineRange) : Bool :=
  changedRanges.any fun r => decide (r.start ≤ lineNum) && decide (lineNum ≤ r.stop + 5)

/-- The per-line body of the primary generator's `checkTypeScriptFile`
(`scripts/generate-pr-comments.js`): one `forEach` whose first statement
returns unless the line is inside the changed-only window, so every
later check — including the near-changed method check — only ever sees
changed lines.  The second component is `false` when `getJsDocInfo` would
fault (never the case for in-range indices), mirroring the surrounding
`try`. -/
def GenPr.checkLine (file : String) (lines : List String) (ranges : List LineRange)
    (index : Nat) (line : String) : List PrComment × Bool :=
  let lineNum := index + 1
  if !isLineChanged lineNum ranges then ([], true)
  else
    let c1 := if strContains line "console.log" then
        [⟨file, lineNum, "⚠️ **Code Standard Violation**: `console.log()` should not be in production code. Use a logging service instead."⟩]
      else []
    let c2 := if strContains line "debugger" then
        [⟨file, lineNum, "❌ **Critical**: `debugger` statement must be removed before merge."⟩]
      else []
    let c3 := if strContains line "TODO" then
        [⟨file, lineNum, "📝 **TODO**: Track in issue tracker or resolve before merge."⟩]
      else []
    let c4 := if strContains line "FIXME" then
        [⟨file, lineNum, "🔧 **FIXME**: This issue needs to be resolved before merge."⟩]
      else []
    let pre := c1 ++ c2 ++ c3 ++ c4
    if methodRegexTest line && !angularReactive line && isNearChangedLine lineNum ranges then
      match getJsDocInfo lines (index : Int) with
      | none => (pre, false)
      | some info =>
          let docPart :=
            if info.exists_ = false then
              [⟨file, lineNum, "📚 **Missing JSDoc**: Public functions need documentation with description, parameters, and return type."⟩]
            else
              (if !hasReturnsTag info.content && !strContains line ": void" then
                  [⟨file, lineNum, "📚 **JSDoc Standard**: Missing `@returns` tag in JSDoc."⟩]
                else []) ++
              (let ac := checkAccessModifierTag info.content (getAccessModifier line)
               if ac.valid = false then
                  [⟨file, lineNum, "📚 **JSDoc Standard**: " ++ ac.message⟩]
                else []) ++
              (let pc := checkParamTags info.content (extractParams line)
               if pc.valid = false then
                  pc.errors.map fun e => (⟨file, lineNum, "📚 **JSDoc Standard**: " ++ e⟩ : PrComment)
                else [])
          let rtPart :=
            if (getAccessModifier line).isSome && !hasRetType line then
              [⟨file, lineNum, "⚠️ **Code Standard**: Method missing return type annotation."⟩]
            else []
          (pre ++ docPart ++ rtPart, true)
    else (pre, true)

/-- The `forEach` of the primary generator, stopping early when a line
check faults (the `catch` then returns what was accumulated). -/
def GenPr.checkLinesGo (file : String) (lines : List String) (ranges : List LineRange) :
    Nat → List String → List PrComment
  | _, [] => []
  | i, l :: rest =>
      let r := GenPr.checkLine file lines ranges i l
      if r.2 then r.1 ++ GenPr.checkLinesGo file lines ranges (i + 1) rest
      else r.1

/-- `checkTypeScriptFile(file, changedRanges)` of
`scripts/generate-pr-comments.js`, over already-split lines. -/
def GenPr.checkTypeScriptFile (file : String) (lines : List String)
    (ranges : List LineRange) : List PrComment :=
  GenPr.checkLinesGo file lines ranges 0 lines

/-- The first `forEach` of the enhanced generator's variant
(`checkTypeScriptFile` of the copy that imports the standards module):
the four substring detectors under the changed-only window. -/
def Enh.debugLine (file : String) (ranges : List LineRange) (index : Nat) (line : String) :
    List PrComment :=
  let lineNum := index + 1
  if !isLineChanged lineNum ranges then []
  else
    (if strContains line "console.log" then
        [⟨file, lineNum, "⚠️ **Code Standard Violation**: `console.log()` should not be in production code. Use a logging service instead."⟩]
      else []) ++
    (if strContains line "debugger" then
        [⟨file, lineNum, "❌ **Critical**: `debugger` statement must be removed before merge."⟩]
      else []) ++
    (if strContains line "TODO" then
        [⟨file, lineNum, "📝 **TODO**: Track in issue tracker or resolve before merge."⟩]
      else []) ++
    (if strContains line "FIXME" then
        [⟨file, lineNum, "🔧 **FIXME**: This issue needs to be resolved before merge."⟩]
      else [])

/-- Sequencing of the enhanced generator's per-line blocks: a faulting
block aborts the rest of the line's checks (and the file's `try` keeps the
comments accumulated so far). -/
def andThenC {α : Type} (a : List α × Bool) (f : Unit → List α × Bool) :
    List α × Bool :=
  if a.2 then
    let b := f ()
    (a.1 ++ b.1, b.2)
  else a

/-- One reactive-property block of the enhanced generator's second
`forEach`: under the near-changed window, a missing-documentation,
multi-line-format or (for computed properties) empty-description comment,
then the access-modifier comment. -/
def Enh.reactiveBlock (file : String) (lines : List String) (ranges : List LineRange)
    (index : Nat) (line : String) (test : Bool)
    (missingBody fmtBody emptyBody accessBody : String) (checkEmpty : Bool) :
    List PrComment × Bool :=
  let lineNum := index + 1
  if test && isNearChangedLine lineNum ranges then
    match getJsDocInfo lines (index : Int) with
    | none => ([], false)
    | some info =>
        let doc :=
          if info.exists_ = false then [⟨file, lineNum, missingBody⟩]
          else if info.isSingleLine = false then [⟨file, lineNum, fmtBody⟩]
          else if checkEmpty ∧ jsTrimC (stripDocDelims info.content.data) = [] then
            [⟨file, lineNum, emptyBody⟩]
          else []
        let acc := if !hasAccessKeyword line then [⟨file, lineNum, accessBody⟩] else []
        (doc ++ acc, true)
  else ([], true)

/-- The method block of the enhanced generator's second `forEach`. -/
def Enh.methodBlock (file : String) (lines : List String) (ranges : List LineRange)
    (index : Nat) (line : String) : List PrComment × Bool :=
  let lineNum := index + 1
  if methodRegexTest line && isNearChangedLine lineNum ranges then
    match getJsDocInfo lines (index : Int) with
    | none => ([], false)
    | some info =>
        let docPart :=
          if info.exists_ = false then
            [⟨file, lineNum, "📚 **Missing JSDoc**: Methods require proper JSDoc documentation with description, @param tags, and @returns."⟩]
          else
            (if !hasReturnsTag info.content then
                [⟨file, lineNum, "📚 **JSDoc Standard**: Missing `@returns` tag describing the return value."⟩]
              else []) ++
            (let ac := checkAccessModifierTag info.content (getAccessModifier line)
             if ac.valid = false then
                [⟨file, lineNum, "📚 **JSDoc Standard**: " ++ ac.message⟩]
              else []) ++
            (let pc := checkParamTags info.content (extractParams line)
             if pc.valid = false then
                pc.errors.map fun e => (⟨file, lineNum, "📚 **JSDoc Standard**: " ++ e⟩ : PrComment)
              else [])
        let accPart :=
          if (getAccessModifier line).isNone then
            [⟨file, lineNum, "📚 **Code Standard**: Method missing access modifier (public/private/protected)."⟩]
          else []
        let rtPart :=
          if !hasRetType line then
            [⟨file, lineNum, "📚 **Code Standard**: Method missing explicit return type annotation."⟩]
          else []
        (docPart ++ accPart ++ rtPart, true)
  else ([], true)

/-- One line of the enhanced generator's second `forEach`: the method
block then the five reactive-property blocks, in source order. -/
def Enh.declLine (file : String) (lines : List String) (ranges : List LineRange)
    (index : Nat) (line : String) : List PrComment × Bool :=
  andThenC (Enh.methodBlock file lines ranges index line) fun _ =>
  andThenC (Enh.reactiveBlock file lines ranges index line
    (reactiveTestEnh "computed" true false line)
    "📚 **Missing JSDoc**: Computed property requires single-line JSDoc (/** description */)."
    "📚 **JSDoc Standard**: Computed property should have single-line JSDoc, not multi-line."
    "📚 **JSDoc Standard**: JSDoc is empty - add a description."
    "📚 **Code Standard**: Computed property missing access modifier (public/private/protected)."
    true) fun _ =>
  andThenC (Enh.reactiveBlock file lines ranges index line
    (reactiveTestEnh "signal" true false line)
    "📚 **Missing JSDoc**: Signal requires single-line JSDoc (/** description */)."
    "📚 **JSDoc Standard**: Signal should have single-line JSDoc, not multi-line."
    "" "📚 **Code Standard**: Signal missing access modifier (public/private/protected)."
    false) fun _ =>
  andThenC (Enh.reactiveBlock file lines ranges index line
    (reactiveTestEnh "input" false true line)
    "📚 **Missing JSDoc**: Input property requires single-line JSDoc (/** description */)."
    "📚 **JSDoc Standard**: Input should have single-line JSDoc, not multi-line."
    "" "📚 **Code Standard**: Input property missing access modifier (public/private/protected)."
    false) fun _ =>
  andThenC (Enh.reactiveBlock file lines ranges index line
    (reactiveTestEnh "output" false false line)
    "📚 **Missing JSDoc**: Output property requires single-line JSDoc (/** description */)."
    "📚 **JSDoc Standard**: Output should have single-line JSDoc, not multi-line."
    "" "📚 **Code Standard**: Output property missing access modifier (public/private/protected)."
    false) fun _ =>
  Enh.reactiveBlock file lines ranges index line
    (reactiveTestEnh "viewChild" true true line)
    "📚 **Missing JSDoc**: ViewChild property requires single-line JSDoc (/** description */)."
    "📚 **JSDoc Standard**: ViewChild should have single-line JSDoc, not multi-line."
    "" "📚 **Code Standard**: ViewChild property missing access modifier (public/private/protected)."
    false

/-- The first `forEach` of the enhanced generator over all lines. -/
def Enh.debugLinesGo (file : String) (ranges : List LineRange) :
    Nat → List String → List PrComment
  | _, [] => []
  | i, l :: rest => Enh.debugLine file ranges i l ++ Enh.debugLinesGo file ranges (i + 1) rest

/-- The second `forEach` of the enhanced generator, stopping early when a
block faults. -/
def Enh.declLinesGo (file : String) (lines : List String) (ranges : List LineRange) :
    Nat → List String → List PrComment
  | _, [] => []
  | i, l :: rest =>
      let r := Enh.declLine file lines ranges i l
      if r.2 then r.1 ++ Enh.declLinesGo file lines ranges (i + 1) rest
      else r.1

/-- `checkTypeScriptFile(file, changedRanges)` of the enhanced generator
variant: the changed-only debug pass over all lines, then the
near-changed declaration pass over all lines. -/
def Enh.checkTypeScriptFile (file : String) (lines : List String)
    (ranges : List LineRange) : List PrComment :=
  Enh.debugLinesGo file ranges 0 lines ++ Enh.declLinesGo file lines ranges 0 lines

/-- The end-to-end scenario file: 20 lines, a debug call at line 6 and an
undocumented method declaration at line 10 (1-based). -/
def c1Lines : List String :=
  ["const a1 = 1;", "const a2 = 2;", "const a3 = 3;", "const a4 = 4;",
   "const a5 = 5;", "console.log(x)", "const a7 = 7;", "", "",
   "  private computeTotal(amount: number): number \x7b",
   "    return amount;", "  \x7d",
   "const b13 = 13;", "const b14 = 14;", "const b15 = 15;", "const b16 = 16;",
   "const b17 = 17;", "const b18 = 18;", "const b19 = 19;", "const b20 = 20;"]

/-- The scenario diff: the single hunk header `@@ -5,0 +5,3 @@`. -/
def c1Diff : String :=
  "@@ -5,0 +5,3 @@\n+const a5 = 5;\n+console.log(x)\n+const a7 = 7;"

/-- Characters that may start a JS identifier with dollar: `[a-zA-Z_$]`. -/
def identDollarStart (c : Char) : Bool :=
  (65 ≤ c.toNat && c.toNat ≤ 90) || (97 ≤ c.toNat && c.toNat ≤ 122) ||
    c.toNat == 95 || c.toNat == 36

/-- `[a-zA-Z0-9_$]`. -/
def identDollarChar (c : Char) : Bool := wordChar c || c.toNat == 36

/-- Head test for a mandatory `[ \t]+`. -/
def headSpaceTab : List Char → Bool
  | c :: _ => spaceTab c
  | [] => false

/-- The mandatory visibility group `(public|private|protected)` of the CLI
reactive regexes, each alternative at the position right after the
keyword (the alternatives are mutually exclusive prefixes, so at most one
entry appears). -/
def visRequired (t : List Char) : List (List Char) :=
  (if "public".data.isPrefixOf t then [t.drop 6] else []) ++
    (if "private".data.isPrefixOf t then [t.drop 7] else []) ++
    (if "protected".data.isPrefixOf t then [t.drop 9] else [])

/-- `[a-zA-Z_$][a-zA-Z0-9_$]*\s*=\s*FACTORY(\.required)?\s*[<(]`, the
identifier-and-tail part of the CLI reactive regexes (the greedy
identifier scan is safe: an identifier character is neither whitespace
nor `=`). -/
def cliIdentCore (factory : String) (allowRequired : Bool) : List Char → Bool
  | c :: r =>
      identDollarStart c &&
        factoryTail factory allowRequired ((r.dropWhile identDollarChar).dropWhile jsWs)
  | [] => false

/-- The CLI reactive regexes
`^[ \t]*(public|private|protected)[ \t]+(readonly[ \t]+)?IDENT\s*=\s*FACTORY(\.required)?\s*[<(]`
of `check-code-standards.js` (`readonly` group only where the regex has
one); both choices of the optional `readonly` group are attempted. -/
def reactiveTestCli (factory : String) (withReadonly allowRequired : Bool) (s : String) :
    Bool :=
  let t := s.data.dropWhile spaceTab
  (visRequired t).any fun t1 =>
    headSpaceTab t1 &&
      (let t2 := t1.dropWhile spaceTab
       let cands :=
         [t2] ++
           (if withReadonly && "readonly".data.isPrefixOf t2 && headSpaceTab (t2.drop 8) then
              [(t2.drop 8).dropWhile spaceTab] else [])
       cands.any fun t3 => cliIdentCore factory allowRequired t3)

/-- A CLI violation record `{ file, line, message }`. -/
structure Violation where
  file : String
  line : Nat
  message : String
deriving Repr, DecidableEq

/-- The method block of the CLI per-line loop in `checkFile`
(`check-code-standards.js`): JSDoc-dependent violations first, then the
access-modifier and return-type ones, in `addViolation` order.  The
second component is `false` when `getJsDocInfo` would fault, which
nothing in `checkFile` catches. -/
def Cli.methodBlock (file : String) (lines : List String)
    (index : Nat) (line : String) : List Violation × Bool :=
  let lineNum := index + 1
  if methodRegexTest line then
    match getJsDocInfo lines (index : Int) with
    | none => ([], false)
    | some info =>
        let actualModifier := getAccessModifier line
        let docPart :=
          if info.exists_ = false then
            [⟨file, lineNum, "Missing JSDoc above method"⟩]
          else
            (if !hasReturnsTag info.content then
                [⟨file, lineNum, "Missing @returns in JSDoc"⟩]
              else []) ++
            (let ac := checkAccessModifierTag info.content actualModifier
             if ac.valid = false then [⟨file, lineNum, ac.message⟩] else []) ++
            (let pc := checkParamTags info.content (extractParams line)
             if pc.valid = false then
                pc.errors.map fun e => (⟨file, lineNum, e⟩ : Violation)
              else [])
        let accPart :=
          if actualModifier.isNone then
            [⟨file, lineNum, "Missing access modifier on method"⟩]
          else []
        let rtPart :=
          if !hasRetType line then [⟨file, lineNum, "Missing return type"⟩] else []
        (docPart ++ accPart ++ rtPart, true)
  else ([], true)

/-- A reactive-property block of the CLI per-line loop: missing-JSDoc or
the `checkSingleLineJsDoc` errors, then the access-keyword check. -/
def Cli.reactiveBlock (file : String) (lines : List String)
    (index : Nat) (line : String) (test : Bool)
    (missingBody propertyType accessBody : String) : List Violation × Bool :=
  let lineNum := index + 1
  if test then
    match getJsDocInfo lines (index : Int) with
    | none => ([], false)
    | some info =>
        let doc :=
          if info.exists_ = false then [⟨file, lineNum, missingBody⟩]
          else
            (checkSingleLineJsDoc info propertyType).map
              fun e => (⟨file, lineNum, e⟩ : Violation)
        let acc :=
          if !hasAccessKeyword line then [⟨file, lineNum, accessBody⟩] else []
        (doc ++ acc, true)
  else ([], true)

/-- One line of the CLI loop: the method block then the five reactive
blocks, in source order. -/
def Cli.lineBlocks (file : String) (lines : List String)
    (index : Nat) (line : String) : List Violation × Bool :=
  andThenC (Cli.methodBlock file lines index line) fun _ =>
  andThenC (Cli.reactiveBlock file lines index line
    (reactiveTestCli "computed" true false line)
    "Missing JSDoc above computed property" "Computed property"
    "Missing access modifier on computed property") fun _ =>
  andThenC (Cli.reactiveBlock file lines index line
    (reactiveTestCli "signal" true false line)
    "Missing JSDoc above signal" "Signal"
    "Missing access modifier on signal") fun _ =>
  andThenC (Cli.reactiveBlock file lines index line
    (reactiveTestCli "input" false true line)
    "Missing JSDoc above input" "Input"
    "Missing access modifier on input") fun _ =>
  andThenC (Cli.reactiveBlock file lines index line
    (reactiveTestCli "output" false false line)
    "Missing JSDoc above output" "Output"
    "Missing access modifier on output") fun _ =>
  Cli.reactiveBlock file lines index line
    (reactiveTestCli "viewChild" true true line)
    "Missing JSDoc above viewChild" "ViewChild"
    "Missing access modifier on viewChild"

/-- The CLI `for` loop over all lines, stopping at a fault. -/
def Cli.linesGo (file : String) (lines : List String) :
    Nat → List String → List Violation × Bool
  | _, [] => ([], true)
  | i, l :: rest =>
      let r := Cli.lineBlocks file lines i l
      if r.2 then
        let k := Cli.linesGo file lines (i + 1) rest
        (r.1 ++ k.1, k.2)
      else (r.1, false)

/-- An execution environment for the scanners: `read` is
`fs.readFileSync` on one file (`none` when the call throws) and `diff`
is the `git diff -U0` spawn for one file (`none` when the spawn throws). -/
structure Env where
  read : String → Option String
  diff : String → Option String

/-- The body of `checkFile` on already-split lines: the accumulated
violations and the no-fault flag. -/
def Cli.checkFileCore (file : String) (lines : List String) : List Violation × Bool :=
  Cli.linesGo file lines 0 lines

/-- `checkFile(file)` of `check-code-standards.js`: `fs.readFileSync`
sits outside any `try`, so an unreadable file makes the whole call throw
(`none`); otherwise the loop runs and the result is
`{ hasError, violations }`. -/
def Cli.checkFile (env : Env) (file : String) : Option (Bool × List Violation) :=
  match env.read file with
  | none => none
  | some content =>
      let r := Cli.checkFileCore file (splitLines content)
      if r.2 then some (decide (r.1.length > 0), r.1) else none

/-- The CLI entry `files.forEach(file => checkFile(file, true))` with its
running `hasError` flag: an exception escaping one `checkFile` call
aborts the whole `forEach` (`none`), so no later file is checked. -/
def Cli.run (env : Env) : List String → Option Bool
  | [] => some false
  | f :: rest =>
      match Cli.checkFile env f with
      | none => none
      | some r => (Cli.run env rest).map fun b => r.1 || b

/-- `getChangedLineRanges(file)` including its `try`: a failed diff spawn
is caught and yields no ranges. -/
def getChangedLineRangesE (env : Env) (file : String) : List LineRange :=
  match env.diff file with
  | none => []
  | some d => getChangedLineRanges d

/-- `checkTypeScriptFile(file, changedRanges)` of the primary generator
including its `try`: an unreadable file is caught and contributes no
comments (the `comments` array lives outside the `try`, so a mid-loop
fault would still return the comments pushed so far). -/
def GenPr.checkTypeScriptFileE (env : Env) (file : String) (ranges : List LineRange) :
    List PrComment :=
  match env.read file with
  | none => []
  | some content => GenPr.checkTypeScriptFile file (splitLines content) ranges

/-- `file.endsWith(pat)`. -/
def strEndsWith (s pat : String) : Bool := pat.data.isSuffixOf s.data

/-- The generator main pass over the changed-file list: non-TypeScript,
spec and story files are skipped, a file with no ranges is skipped, the
rest contribute their comments in list order. -/
def GenPr.scanTsFiles (env : Env) : List String → List PrComment
  | [] => []
  | f :: rest =>
      if !strEndsWith f ".ts" || strEndsWith f ".spec.ts" || strEndsWith f ".stories.ts" then
        GenPr.scanTsFiles env rest
      else
        let ranges := getChangedLineRangesE env f
        if ranges.isEmpty then GenPr.scanTsFiles env rest
        else GenPr.checkTypeScriptFileE env f ranges ++ GenPr.scanTsFiles env rest

/-- An environment in which every file reads as one harmless line except
`bad.ts`, which is unreadable, and no diff can be obtained. -/
def envC7 : Env :=
  ⟨fun s => if s = "bad.ts" then none else some "const x = 1;\n", fun _ => none⟩

/-- An inline review comment `{ path, line, side, body }` as built by
`postReview`. -/
structure ReviewComment where
  path : String
  line : Nat
  side : String
  body : String
deriving Repr, DecidableEq

/-- The observable outcome of `postReview`: no request at all, a
`pulls.createReview` request with its body and inline comments, or the
`issues.createComment` fallback with its body. -/
inductive ReviewOutcome where
  | noAction : ReviewOutcome
  | review : String → List ReviewComment → ReviewOutcome
  | fallback : String → ReviewOutcome
deriving Repr, DecidableEq

/-- The `comments.map` step of `postReview`: path, line and body are
copied and the side is always `RIGHT`. -/
def toReviewComment (c : PrComment) : ReviewComment :=
  ⟨c.path, c.line, "RIGHT", c.body⟩

/-- `postReview(github, context)` of `post-pr-review.js` after the
violations file has been read and parsed into `comments`; `ok` abstracts
whether the `pulls.createReview` request resolves, and the fallback arm
is the `issues.createComment` call in the `catch`. -/
def postReview (ok : Bool) (comments : List PrComment) : ReviewOutcome :=
  if comments.length > 0 then
    let reviewComments := comments.map toReviewComment
    if ok then
      ReviewOutcome.review
        ("## 🔍 Code Standards Review\n\nFound " ++ toString comments.length ++
          " violation(s) that need to be resolved. See inline comments below.")
        (reviewComments.take 30)
    else
      ReviewOutcome.fallback
        ("## 🔍 Code Standards Violations\n\nFound " ++ toString comments.length ++
          " violations. Check logs for details.")
  else ReviewOutcome.noAction

theorem rangesLoop_eq_filterMap (ls : List String) (cur : Nat) :
    rangesLoop ls cur =
      ls.filterMap (fun l => (parseHunkLine l).map hunkRangeSpec) := by
  induction ls generalizing cur with
  | nil => rfl
  | cons l rest ih =>
    cases h : parseHunkLine l with
    | none =>
        simp only [rangesLoop, h, List.filterMap_cons, Option.map_none']
        split <;> exact ih _
    | some cd =>
        obtain ⟨c, dopt⟩ := cd
        simp only [rangesLoop, h, List.filterMap_cons, Option.map_some']
        cases dopt with
        | none => simp [hunkRangeSpec, ih]
        | some d =>
            cases d with
            | zero => simp [hunkRangeSpec, ih]
            | succ d' => simp [hunkRangeSpec, ih]

/-- C2 counterexample: on the pure-deletion hunk header `@@ -5,3 +5,0 @@`
(new count `d = 0`), the range computation produces `{start 5, end 5}`,
not the `{start 5, end 5 + 0 - 1}` the claim's formula states: `parseInt`
yields the falsy `0`, so `|| 1` replaces it with `1`. -/
theorem c2_counterexample :
    getChangedLineRanges "@@ -5,3 +5,0 @@" = [⟨5, 5⟩] ∧
      getChangedLineRanges "@@ -5,3 +5,0 @@" ≠ [⟨5, 5 + 0 - 1⟩] := by
  constructor
  · rfl
  · decide

/-- C2 (amended): every range the diff-range computation produces comes
from a hunk header, one range per header in order; a header with explicit
new count `d ≥ 1` yields exactly `{start c, end c + d - 1}`, while `d = 0`
(where `parseInt`'s falsy result is replaced by `1`) and an omitted `d`
both yield the length-one range `{start c, end c}`. -/
theorem c2_hunk_ranges (diff : String) :
    getChangedLineRanges diff =
      (splitLines diff).filterMap (fun l => (parseHunkLine l).map hunkRangeSpec) ∧
    (∀ c d, 1 ≤ d → hunkRangeSpec (c, some d) = ⟨c, c + d - 1⟩) ∧
    (∀ c, hunkRangeSpec (c, some 0) = ⟨c, c⟩) ∧
    (∀ c, hunkRangeSpec (c, none) = ⟨c, c⟩) := by
  refine ⟨rangesLoop_eq_filterMap _ 0, ?_, fun c => rfl, fun c => rfl⟩
  intro c d hd
  match d, hd with
  | d + 1, _ => rfl

/-- Witness for C2's amended theorem at the concrete header
`@@ -2,2 +5,3 @@`. -/
theorem c2_hunk_ranges_witness :
    getChangedLineRanges "@@ -2,2 +5,3 @@" = [⟨5, 7⟩] ∧
      hunkRangeSpec (5, some 3) = ⟨5, 5 + 3 - 1⟩ := by
  have h := c2_hunk_ranges "@@ -2,2 +5,3 @@"
  exact ⟨by rw [h.1]; rfl, h.2.1 5 3 (by decide)⟩

theorem skipBlanksP_acc_nonneg (lines : List String) :
    ∀ p, ∀ a ∈ (skipBlanksP lines p).2, 0 ≤ a := by
  intro p
  induction p with
  | zero => intro a ha; simp [skipBlanksP] at ha
  | succ q ih =>
      intro a ha
      simp only [skipBlanksP] at ha
      split at ha
      · rcases List.mem_cons.mp ha with h | h
        · omega
        · exact ih a h
      · rcases List.mem_singleton.mp ha with h
        omega

theorem skipDecorsP_acc_nonneg (lines : List String) :
    ∀ p, ∀ a ∈ (skipDecorsP lines p).2, 0 ≤ a := by
  intro p
  induction p with
  | zero => intro a ha; simp [skipDecorsP] at ha
  | succ q ih =>
      intro a ha
      simp only [skipDecorsP] at ha
      split at ha
      · rcases List.mem_cons.mp ha with h | h
        · omega
        · exact ih a h
      · rcases List.mem_singleton.mp ha with h
        omega

theorem walkBackP_acc_nonneg (lines : List String) :
    ∀ p, ∀ a ∈ (walkBackP lines p).2, 0 ≤ a := by
  intro p
  induction p with
  | zero => intro a ha; simp [walkBackP] at ha
  | succ q ih =>
      intro a ha
      simp only [walkBackP] at ha
      split at ha
      · rcases List.mem_singleton.mp ha with h; omega
      · split at ha
        · rcases List.mem_singleton.mp ha with h; omega
        · rcases List.mem_cons.mp ha with h | h
          · omega
          · exact ih a h

theorem walkBackP_lt (lines : List String) :
    ∀ p s acc, walkBackP lines p = (some s, acc) → s < p := by
  intro p
  induction p with
  | zero => intro s acc h; simp [walkBackP] at h
  | succ q ih =>
      intro s acc h
      simp only [walkBackP] at h
      split at h
      · injection h with h1 h2
        injection h1 with h1
        omega
      · split at h
        · injection h with h1 h2
          cases h1
        · have h1 := congrArg Prod.fst h
          rcases hq : walkBackP lines q with ⟨ow, a2⟩
          rw [hq] at h1
          dsimp only at h1
          have := ih s a2 (by rw [hq, h1])
          omega

theorem scanFwdGo_acc_nonneg :
    ∀ (ls : List String) (e : Nat), ∀ a ∈ (scanFwdGo ls e).2, 0 ≤ a := by
  intro ls
  induction ls with
  | nil => intro e a ha; simp [scanFwdGo] at ha
  | cons l rest ih =>
      intro e a ha
      simp only [scanFwdGo] at ha
      split at ha
      · rcases List.mem_singleton.mp ha with h; omega
      · rcases List.mem_cons.mp ha with h | h
        · omega
        · exact ih (e + 1) a h

theorem scanFwdGo_le :
    ∀ (ls : List String) (e : Nat), e ≤ (scanFwdGo ls e).1 := by
  intro ls
  induction ls with
  | nil => intro e; simp [scanFwdGo]
  | cons l rest ih =>
      intro e
      simp only [scanFwdGo]
      split
      · exact Nat.le_refl e
      · exact Nat.le_trans (Nat.le_succ e) (ih (e + 1))

theorem afterSkipsR_acc_nonneg (lines : List String) (index : Int) :
    ∀ a ∈ (afterSkipsR lines index).2, 0 ≤ a := by
  unfold afterSkipsR
  split
  · intro a ha; simp at ha
  · split
    · intro a ha
      simp only [List.mem_singleton] at ha
      omega
    · intro a ha
      simp only [List.mem_append] at ha
      rcases ha with (h | h) | h
      · exact skipBlanksP_acc_nonneg lines _ a h
      · exact skipDecorsP_acc_nonneg lines _ a h
      · exact skipBlanksP_acc_nonneg lines _ a h

/-- C9: for every lines array and every integer index — negative, zero, or
at or beyond the array length — the comment-block locator is a total
function of its inputs (it terminates), every `lines[j]` access it
performs is at a non-negative index, and whenever it reports
`exists: true` the returned boundaries satisfy
`0 ≤ startIdx ≤ endIdx`.  (`none` in the first component models the
`TypeError` thrown when `index` exceeds the array length; that fault reads
the non-negative index `index - 1`, never a negative one.) -/
theorem c9_access_safety (lines : List String) (index : Int) :
    (∀ a ∈ (getJsDocInfoR lines index).2, 0 ≤ a) ∧
    (∀ info, (getJsDocInfoR lines index).1 = some info → info.exists_ = true →
      0 ≤ info.startIdx ∧ info.startIdx ≤ info.endIdx) := by
  have hskip := afterSkipsR_acc_nonneg lines index
  constructor
  · intro a ha
    unfold getJsDocInfoR at ha
    rcases hA : afterSkipsR lines index with ⟨o, acc⟩
    rw [hA] at ha
    have hskip' : ∀ a ∈ acc, 0 ≤ a := by rw [hA] at hskip; exact hskip
    match o with
    | none => exact hskip' a ha
    | some 0 => exact hskip' a ha
    | some (j + 1) =>
        simp only at ha
        split at ha
        · rcases List.mem_append.mp ha with h | h
          · exact hskip' a h
          · rcases List.mem_singleton.mp h with h; omega
        · split at ha
          · rcases hW : walkBackP lines (j + 1) with ⟨ow, acc2⟩
            rw [hW] at ha
            have hw' : ∀ a ∈ acc2, 0 ≤ a := by
              have := walkBackP_acc_nonneg lines (j + 1)
              rw [hW] at this; exact this
            match ow with
            | some s =>
                simp only at ha
                rcases List.mem_append.mp ha with h | h
                · rcases List.mem_append.mp h with h' | h'
                  · exact hskip' a h'
                  · rcases List.mem_singleton.mp h' with h'; omega
                · exact hw' a h
            | none =>
                simp only at ha
                rcases List.mem_append.mp ha with h | h
                · rcases List.mem_append.mp h with h' | h'
                  · exact hskip' a h'
                  · rcases List.mem_singleton.mp h' with h'; omega
                · exact hw' a h
          · split at ha
            · rcases List.mem_append.mp ha with h | h
              · rcases List.mem_append.mp h with h' | h'
                · exact hskip' a h'
                · rcases List.mem_singleton.mp h' with h'; omega
              · have := scanFwdGo_acc_nonneg (lines.drop j) j
                exact this a h
            · rcases List.mem_append.mp ha with h | h
              · exact hskip' a h
              · rcases List.mem_singleton.mp h with h; omega
  · intro info hinfo hex
    unfold getJsDocInfoR at hinfo
    rcases hA : afterSkipsR lines index with ⟨o, acc⟩
    rw [hA] at hinfo
    match o with
    | none => cases hinfo
    | some 0 =>
        simp only [Option.some.injEq] at hinfo
        rw [← hinfo] at hex
        cases hex
    | some (j + 1) =>
        simp only at hinfo
        split at hinfo
        · simp only [Option.some.injEq] at hinfo
          rw [← hinfo]
          constructor <;> simp
        · split at hinfo
          · rcases hW : walkBackP lines (j + 1) with ⟨ow, acc2⟩
            rw [hW] at hinfo
            match ow with
            | some s =>
                simp only [Option.some.injEq] at hinfo
                rw [← hinfo]
                have hs := walkBackP_lt lines (j + 1) s acc2 hW
                constructor
                · simp
                · simp only
                  omega
            | none =>
                simp only [Option.some.injEq] at hinfo
                rw [← hinfo] at hex
                cases hex
          · split at hinfo
            · simp only [Option.some.injEq] at hinfo
              rw [← hinfo]
              have he : j ≤ (scanFwdP lines j).1 := scanFwdGo_le (lines.drop j) j
              constructor
              · simp
              · simp only
                omega
            · simp only [Option.some.injEq] at hinfo
              rw [← hinfo] at hex
              cases hex

/-- Witness for C9 at a concrete input: the multi-line block located above
index 3 of a four-line file has non-negative, ordered boundaries, and
every access went to a non-negative index. -/
theorem c9_access_safety_witness :
    (∀ a ∈ (getJsDocInfoR ["/**", " * d", " */", "f(): T \x7b"] 3).2, 0 ≤ a) ∧
      (0 : Int) ≤ 0 ∧ (0 : Int) ≤ 2 := by
  have h := c9_access_safety ["/**", " * d", " */", "f(): T \x7b"] 3
  refine ⟨h.1, ?_⟩
  have h2 := h.2 ⟨true, false, 0, 2, "/**\n * d\n */"⟩ (by rfl) (by rfl)
  exact ⟨h2.1, by decide⟩

theorem starLine_not_single (s : String) (h : starLine s = true) :
    isSingleLineJsDocLine s = false := by
  unfold starLine at h
  unfold isSingleLineJsDocLine
  rcases ht : jsTrimL s.data with _ | ⟨c, t⟩
  · rw [ht] at h; cases h
  · have hc : c = '*' := by rw [ht] at h; simpa using h
    subst hc
    show (['/', '*', '*'].isPrefixOf ('*' :: t) &&
        "*/".data.isSuffixOf (jsTrimR (List.drop 3 ('*' :: t)))) = false
    simp [List.isPrefixOf]

theorem jsdocStart_imp_blockStart (s : String) (h : jsdocStartLine s = true) :
    blockStartLine s = true := by
  unfold jsdocStartLine at h
  unfold blockStartLine
  have h' : "/**".data <+: jsTrimL s.data := by
    exact List.isPrefixOf_iff_prefix.mp h
  have h2 : "/*".data <+: jsTrimL s.data :=
    List.IsPrefix.trans ⟨['*'], rfl⟩ h'
  exact List.isPrefixOf_iff_prefix.mpr h2

/-- If, below position `p` (exclusive), the nearest line opening any
comment block opens a non-documentation block, the backward walk rejects. -/
theorem walkBackP_reject (lines : List String) :
    ∀ p k, k < p → blockStartLine (lineAt lines k) = true →
      jsdocStartLine (lineAt lines k) = false →
      (∀ i, k < i → i < p → blockStartLine (lineAt lines i) = false) →
      (walkBackP lines p).1 = none := by
  intro p
  induction p with
  | zero => intro k hk _ _ _; omega
  | succ q ih =>
      intro k hk hbs hjs hni
      by_cases hkq : k = q
      · subst hkq
        simp [walkBackP, hjs, hbs]
      · have hbq : blockStartLine (lineAt lines q) = false := hni q (by omega) (by omega)
        have hjq : jsdocStartLine (lineAt lines q) = false := by
          cases hj : jsdocStartLine (lineAt lines q)
          · rfl
          · rw [jsdocStart_imp_blockStart _ hj] at hbq; cases hbq
        have hrec := ih k (by omega) hbs hjs (fun i h1 h2 => hni i h1 (by omega))
        simp [walkBackP, hjq, hbq, hrec]

/-- C3 (amended): after the locator's skipping phase (blanks, then a
contiguous decorator run, then blanks) lands on line `j`, the locator
reports `exists: false` whenever (a) line `j` matches none of the
documentation patterns — it is not a complete single-line block, its first
non-whitespace character is not `*`, and it does not open with `/**` — or
(b) line `j` is a block-closing or mid-block line (leading `*`) and,
walking backward from it, an opener of a non-documentation comment style
(`/*` without a second `*`) appears before any `/**` opener.  (The
original claim's stronger reading — that any non-blank, non-decorator
separating line breaks the association — fails when the separator itself
begins with `*`; see the counterexample.) -/
theorem c3_unassociated (lines : List String) (index : Int) (j : Nat) (acc : List Int)
    (hA : afterSkipsR lines index = (some (j + 1), acc))
    (h : (isSingleLineJsDocLine (lineAt lines j) = false ∧
          starLine (lineAt lines j) = false ∧
          jsdocStartLine (lineAt lines j) = false) ∨
         (starLine (lineAt lines j) = true ∧
          ∃ k, k ≤ j ∧ blockStartLine (lineAt lines k) = true ∧
            jsdocStartLine (lineAt lines k) = false ∧
            ∀ i, k < i → i ≤ j → blockStartLine (lineAt lines i) = false)) :
    jsDocExistsAt lines index = false := by
  unfold jsDocExistsAt getJsDocInfo getJsDocInfoR
  rw [hA]
  rcases h with ⟨h1, h2, h3⟩ | ⟨hs, k, hk, hbs, hjs, hni⟩
  · simp [h1, h2, h3, jsDocNone]
  · have h1 := starLine_not_single _ hs
    have hw : (walkBackP lines (j + 1)).1 = none :=
      walkBackP_reject lines (j + 1) k (by omega) hbs hjs
        (fun i hi1 hi2 => hni i hi1 (by omega))
    rcases hWp : walkBackP lines (j + 1) with ⟨ow, acc2⟩
    rw [hWp] at hw
    dsimp only at hw
    subst hw
    simp [h1, hs, hWp, jsDocNone]

/-- C3 counterexample: the file below has a multi-line documentation block
on lines 0–2, separated from the declaration on line 4 by line 3,
`  * 2;` — a non-blank, non-decorator line that is not part of any
documentation comment (the block closed on line 2).  The claim says the
locator must report `exists: false`; it actually reports `exists: true`,
because the leading `*` of the separator makes it look like a mid-block
line and the backward walk then finds the earlier `/**`. -/
theorem c3_counterexample :
    jsDocExistsAt ["/**", " * Doubles x.", " */", "  * 2;", "  fn(): number \x7b"] 4 = true ∧
      isBlankLine (lineAt ["/**", " * Doubles x.", " */", "  * 2;", "  fn(): number \x7b"] 3) = false ∧
      isDecoratorLine (lineAt ["/**", " * Doubles x.", " */", "  * 2;", "  fn(): number \x7b"] 3) = false ∧
      closesBlockLine (lineAt ["/**", " * Doubles x.", " */", "  * 2;", "  fn(): number \x7b"] 2) = true := by
  refine ⟨by rfl, by decide, by decide, by decide⟩

/-- Witness for C3's amended theorem: a plain statement line `x();`
between a single-line documentation block and the declaration makes the
locator report `exists: false`. -/
theorem c3_unassociated_witness :
    jsDocExistsAt ["/** A. */", "x();", "fn(): T \x7b"] 2 = false := by
  exact c3_unassociated ["/** A. */", "x();", "fn(): T \x7b"] 2 1 [1, 1, 1]
    (by decide) (Or.inl ⟨by decide, by decide, by decide⟩)

theorem mkStr_eq_empty_iff (l : List Char) : ((⟨l⟩ : String) = "") ↔ l = [] := by
  constructor
  · intro h
    exact congrArg String.data h
  · intro h
    subst h
    rfl

theorem dzSegs_ne_nil : ∀ (s : List Char) (d : Int), dzSegs s d ≠ [] := by
  intro s
  induction s with
  | nil => intro d; simp [dzSegs]
  | cons c r ih =>
      intro d
      simp only [dzSegs]
      split
      · simp
      · split
        · simp
        · simp

theorem open_not_close (c : Char) (h : isOpenBr c = true) : isCloseBr c = false := by
  unfold isOpenBr at h
  rcases Bool.or_eq_true_iff.mp h with h1 | h2
  · rcases Bool.or_eq_true_iff.mp h1 with ha | hb
    · rw [show c = '<' by exact_mod_cast of_decide_eq_true ha]; decide
    · rw [show c = '(' by exact_mod_cast of_decide_eq_true hb]; decide
  · rw [show c = '\x7b' by exact_mod_cast of_decide_eq_true h2]; decide

theorem open_ne_comma (c : Char) (h : isOpenBr c = true) : c ≠ ',' := by
  intro hc
  subst hc
  cases h

theorem close_ne_comma (c : Char) (h : isCloseBr c = true) : c ≠ ',' := by
  intro hc
  subst hc
  cases h

theorem splitSegsGo_eq :
    ∀ (s : List Char) (d : Int) (cur : List Char) (acc : List String),
      splitSegsGo s d cur acc = acc ++ segStrs (consFirst cur.reverse (dzSegs s d)) := by
  intro s
  induction s with
  | nil =>
      intro d cur acc
      simp only [splitSegsGo, dzSegs, consFirst, segStrs, List.append_nil,
        List.map_cons, List.map_nil, List.filter]
      rcases h : jsTrimC cur.reverse with _ | _
      · simp [mkStr_eq_empty_iff, h]
      · simp [mkStr_eq_empty_iff, h]
  | cons c r ih =>
      intro d cur acc
      by_cases hop : isOpenBr c = true
      · have hcl := open_not_close c hop
        have hcm := open_ne_comma c hop
        rw [show splitSegsGo (c :: r) d cur acc = splitSegsGo r (d + 1) (c :: cur) acc by
          simp [splitSegsGo, hop]]
        rw [ih (d + 1) (c :: cur) acc]
        have hd : dzSegs (c :: r) d =
            match dzSegs r (d + 1) with
            | s :: rest => (c :: s) :: rest
            | [] => [[c]] := by
          simp only [dzSegs, hop, hcl]
          rw [if_neg (by tauto)]
          norm_num
        rcases hg : dzSegs r (d + 1) with _ | ⟨g, gs⟩
        · exact absurd hg (dzSegs_ne_nil r (d + 1))
        · rw [hg] at hd
          rw [hd]
          simp [consFirst, List.reverse_cons, List.append_assoc]
      · by_cases hcl : isCloseBr c = true
        · have hcm := close_ne_comma c hcl
          rw [show splitSegsGo (c :: r) d cur acc = splitSegsGo r (d - 1) (c :: cur) acc by
            simp [splitSegsGo, hop, hcl]]
          rw [ih (d - 1) (c :: cur) acc]
          have hd : dzSegs (c :: r) d =
              match dzSegs r (d - 1) with
              | s :: rest => (c :: s) :: rest
              | [] => [[c]] := by
            simp only [dzSegs, hop, hcl]
            rw [if_neg (by tauto)]
            norm_num
          rcases hg : dzSegs r (d - 1) with _ | ⟨g, gs⟩
          · exact absurd hg (dzSegs_ne_nil r (d - 1))
          · rw [hg] at hd
            rw [hd]
            simp [consFirst, List.reverse_cons, List.append_assoc]
        · by_cases hcd : c = ',' ∧ d = 0
          · obtain ⟨hc, hd0⟩ := hcd
            subst hc; subst hd0
            have hsplit : splitSegsGo (',' :: r) 0 cur acc =
                if jsTrimC cur.reverse ≠ [] then
                  splitSegsGo r 0 [] (acc ++ [⟨jsTrimC cur.reverse⟩])
                else splitSegsGo r 0 [] acc := by
              simp [splitSegsGo, hop, hcl]
            have hdz : dzSegs (',' :: r) 0 = [] :: dzSegs r 0 := by
              simp [dzSegs]
            rw [hsplit, hdz]
            rcases hg : dzSegs r 0 with _ | ⟨g, gs⟩
            · exact absurd hg (dzSegs_ne_nil r 0)
            · have hrec : ∀ acc2, splitSegsGo r 0 [] acc2 = acc2 ++ segStrs (g :: gs) := by
                intro acc2
                rw [ih 0 [] acc2]
                simp [hg, consFirst]
              rcases ht : jsTrimC cur.reverse with _ | ⟨t0, ts⟩
              · rw [if_neg (by simp [ht])]
                rw [hrec]
                simp [consFirst, segStrs, mkStr_eq_empty_iff, ht, List.filter_cons]
              · rw [if_pos (by simp [ht])]
                rw [hrec]
                simp [consFirst, segStrs, mkStr_eq_empty_iff, ht, List.filter_cons,
                  List.append_assoc]
          · rw [show splitSegsGo (c :: r) d cur acc = splitSegsGo r d (c :: cur) acc by
              simp only [splitSegsGo]
              rw [if_neg (by simp [hop]), if_neg (by simp [hcl]), if_neg hcd]]
            rw [ih d (c :: cur) acc]
            have hd : dzSegs (c :: r) d =
                match dzSegs r d with
                | s :: rest => (c :: s) :: rest
                | [] => [[c]] := by
              simp only [dzSegs]
              rw [if_neg hcd]
              simp [hop, hcl]
            rcases hg : dzSegs r d with _ | ⟨g, gs⟩
            · exact absurd hg (dzSegs_ne_nil r d)
            · rw [hg] at hd
              rw [hd]
              simp [consFirst, List.reverse_cons, List.append_assoc]

theorem takeUntilRParen_none (r : List Char) :
    takeUntilRParen r = none ↔ ')' ∉ r := by
  induction r with
  | nil => simp [takeUntilRParen]
  | cons c t ih =>
      simp only [takeUntilRParen]
      by_cases hc : c = ')'
      · subst hc
        simp
      · rw [if_neg hc]
        simp [Option.map_eq_none', ih, hc, Ne.symm hc]

theorem findParenGroupGo_none (l : List Char) :
    findParenGroupGo l = none ↔ ¬ ∃ a b c2, l = a ++ '(' :: b ++ ')' :: c2 := by
  induction l with
  | nil =>
      simp only [findParenGroupGo]
      constructor
      · rintro _ ⟨a, b, c2, h⟩
        exact absurd h (by simp)
      · intro _
        trivial
  | cons c r ih =>
      simp only [findParenGroupGo]
      by_cases hc : c = '('
      · subst hc
        rw [if_pos rfl, takeUntilRParen_none]
        constructor
        · rintro h ⟨a, b, c2, hd⟩
          rcases a with _ | ⟨a0, a'⟩
          · simp only [List.nil_append, List.cons_append, List.cons.injEq] at hd
            exact h (hd.2 ▸ (by simp))
          · simp only [List.nil_append, List.cons_append, List.cons.injEq] at hd
            refine h (hd.2 ▸ ?_)
            simp
        · intro h hmem
          rcases List.append_of_mem hmem with ⟨s, t, hst⟩
          exact h ⟨[], s, t, by simp [hst]⟩
      · rw [if_neg hc, ih]
        constructor
        · rintro h ⟨a, b, c2, hd⟩
          rcases a with _ | ⟨a0, a'⟩
          · simp only [List.nil_append, List.cons_append, List.cons.injEq] at hd
            exact hc hd.1
          · simp only [List.nil_append, List.cons_append, List.cons.injEq] at hd
            exact h ⟨a', b, c2, hd.2⟩
        · rintro h ⟨a, b, c2, hd⟩
          exact h ⟨c :: a, b, c2, by simp [hd]⟩

theorem segStrs_cons (a : List Char) (t : List (List Char)) :
    segStrs (a :: t) = if jsTrimC a = [] then segStrs t else ⟨jsTrimC a⟩ :: segStrs t := by
  simp only [segStrs, List.map_cons, List.filter_cons]
  by_cases h : jsTrimC a = []
  · rw [if_neg (by simp [mkStr_eq_empty_iff, h]), if_pos h]
  · rw [if_pos (by simp [mkStr_eq_empty_iff, h]), if_neg h]

theorem segStrs_map_mkSig :
    ∀ L : List (List Char),
      (segStrs L).map mkSig =
        ((L.map jsTrimC).filter (fun l => l ≠ [])).map (fun l => mkSig ⟨l⟩) := by
  intro L
  induction L with
  | nil => rfl
  | cons a t ih =>
      rw [segStrs_cons]
      by_cases h : jsTrimC a = []
      · rw [if_pos h]
        simp only [List.map_cons, List.filter_cons]
        rw [if_neg (by simp [h])]
        exact ih
      · rw [if_neg h]
        simp only [List.map_cons, List.filter_cons]
        rw [if_pos (by simp [h])]
        simp only [List.map_cons]
        rw [ih]

/-- C10: every parameter signature `extractParams` returns has a
non-empty name; a line with no parenthesized group — equivalently, no `(`
with a `)` somewhere after it — or whose first group is empty or
whitespace-only yields the empty sequence; and on a non-blank group the
result is exactly the left-to-right sequence of depth-zero
comma-separated segments, trimmed, blank segments dropped, parsed
per segment, and empty-named entries dropped — so parameter order matches
segment order. -/
theorem c10_extract_params (line : String) :
    (∀ p ∈ extractParams line, p.name ≠ "") ∧
    (findParenGroup line = none ↔
      ¬ ∃ a b c2, line.data = a ++ '(' :: b ++ ')' :: c2) ∧
    (findParenGroup line = none → extractParams line = []) ∧
    (∀ g, findParenGroup line = some g → jsTrim g = "" → extractParams line = []) ∧
    (∀ g, findParenGroup line = some g → jsTrim g ≠ "" →
      extractParams line =
        ((((dzSegs (jsTrim g).data 0).map jsTrimC).filter (fun l => l ≠ [])).map
          (fun l => mkSig ⟨l⟩)).filter (fun p => p.name ≠ "")) := by
  refine ⟨?_, ?_, ?_, ?_, ?_⟩
  · intro p hp
    unfold extractParams at hp
    rcases hF : findParenGroup line with _ | g
    · rw [hF] at hp; simp at hp
    · rw [hF] at hp
      dsimp only at hp
      by_cases hE : (jsTrim g).data = []
      · rw [if_pos hE] at hp; simp at hp
      · rw [if_neg hE] at hp
        have := List.of_mem_filter hp
        exact of_decide_eq_true this
  · unfold findParenGroup
    rw [Option.map_eq_none']
    exact findParenGroupGo_none line.data
  · intro h
    unfold extractParams
    rw [h]
  · intro g hg hE
    unfold extractParams
    rw [hg]
    dsimp only
    rw [if_pos (show (jsTrim g).data = [] from congrArg String.data hE)]
  · intro g hg hNE
    unfold extractParams
    rw [hg]
    dsimp only
    rw [if_neg (fun h => hNE ((mkStr_eq_empty_iff (jsTrim g).data).mpr h))]
    rw [splitSegsGo_eq (jsTrim g).data 0 [] []]
    obtain ⟨g0, gs, hdz⟩ := List.exists_cons_of_ne_nil (dzSegs_ne_nil (jsTrim g).data 0)
    rw [hdz]
    simp only [List.nil_append]
    rw [List.reverse_nil]
    show List.filter (fun p => decide (p.name ≠ "")) ((segStrs (g0 :: gs)).map mkSig) =
      List.filter (fun p => decide (p.name ≠ ""))
        ((((g0 :: gs).map jsTrimC).filter (fun l => l ≠ [])).map (fun l => mkSig ⟨l⟩))
    rw [segStrs_map_mkSig]

/-- Witness for C10 at the concrete declaration line
`f(x: number, y: string): void {`. -/
theorem c10_extract_params_witness :
    extractParams "f(x: number, y: string): void \x7b" =
      ((((dzSegs (jsTrim "x: number, y: string").data 0).map jsTrimC).filter
          (fun l => l ≠ [])).map (fun l => mkSig ⟨l⟩)).filter (fun p => p.name ≠ "") ∧
      (⟨"x", "number"⟩ : ParamSig).name ≠ "" := by
  have h := c10_extract_params "f(x: number, y: string): void \x7b"
  refine ⟨h.2.2.2.2 "x: number, y: string" (by rfl) (by decide), ?_⟩
  exact h.1 ⟨"x", "number"⟩ (by decide)

/-- C5: with no visibility keyword on the line the check is skipped and
valid whatever the block holds; with modifier `m`: zero visibility tags
give exactly the one missing-tag error, two or more tags give exactly the
one multiple-tags error, and exactly one tag that does not match `m`
gives exactly the one mismatch error naming `m`. -/
theorem c5_access_modifier_tag (doc : String) (m : String)
    (hm : m = "public" ∨ m = "private" ∨ m = "protected") :
    (checkAccessModifierTag doc none = ⟨true, ""⟩) ∧
    (searchTagB "@public".data doc.data = false →
     searchTagB "@private".data doc.data = false →
     searchTagB "@protected".data doc.data = false →
       checkAccessModifierTag doc (some m) = ⟨false, "Missing @" ++ m ++ " tag in JSDoc"⟩) ∧
    ((if searchTagB "@public".data doc.data then 1 else 0) +
       (if searchTagB "@private".data doc.data then 1 else 0) +
       (if searchTagB "@protected".data doc.data then 1 else 0) ≥ 2 →
       checkAccessModifierTag doc (some m) =
         ⟨false, "Multiple access modifier tags in JSDoc"⟩) ∧
    (searchTagB "@public".data doc.data = true →
     searchTagB "@private".data doc.data = false →
     searchTagB "@protected".data doc.data = false → m ≠ "public" →
       checkAccessModifierTag doc (some m) =
         ⟨false, "JSDoc should have @" ++ m ++ " (method is " ++ m ++ ")"⟩) ∧
    (searchTagB "@public".data doc.data = false →
     searchTagB "@private".data doc.data = true →
     searchTagB "@protected".data doc.data = false → m ≠ "private" →
       checkAccessModifierTag doc (some m) =
         ⟨false, "JSDoc should have @" ++ m ++ " (method is " ++ m ++ ")"⟩) ∧
    (searchTagB "@public".data doc.data = false →
     searchTagB "@private".data doc.data = false →
     searchTagB "@protected".data doc.data = true → m ≠ "protected" →
       checkAccessModifierTag doc (some m) =
         ⟨false, "JSDoc should have @" ++ m ++ " (method is " ++ m ++ ")"⟩) := by
  refine ⟨rfl, ?_, ?_, ?_, ?_, ?_⟩
  · intro h1 h2 h3
    rcases hm with rfl | rfl | rfl <;> simp [checkAccessModifierTag, h1, h2, h3]
  · intro hsum
    rcases hm with rfl | rfl | rfl <;>
      (cases hb1 : searchTagB "@public".data doc.data <;>
       cases hb2 : searchTagB "@private".data doc.data <;>
       cases hb3 : searchTagB "@protected".data doc.data <;>
       simp_all [checkAccessModifierTag])
  · intro h1 h2 h3 hne
    rcases hm with rfl | rfl | rfl
    · exact absurd rfl hne
    · simp [checkAccessModifierTag, h1, h2, h3]
    · simp [checkAccessModifierTag, h1, h2, h3]
  · intro h1 h2 h3 hne
    rcases hm with rfl | rfl | rfl
    · simp [checkAccessModifierTag, h1, h2, h3]
    · exact absurd rfl hne
    · simp [checkAccessModifierTag, h1, h2, h3]
  · intro h1 h2 h3 hne
    rcases hm with rfl | rfl | rfl
    · simp [checkAccessModifierTag, h1, h2, h3]
    · simp [checkAccessModifierTag, h1, h2, h3]
    · exact absurd rfl hne

/-- Witness for C5: a `private` method documented `@public` yields the
mismatch error; no modifier yields valid. -/
theorem c5_access_modifier_tag_witness :
    checkAccessModifierTag "/** x @public */" (some "private") =
      ⟨false, "JSDoc should have @private (method is private)"⟩ ∧
    checkAccessModifierTag "/** x @public */" none = ⟨true, ""⟩ := by
  have h := c5_access_modifier_tag "/** x @public */" "private" (Or.inr (Or.inl rfl))
  exact ⟨h.2.2.2.1 (by decide) (by decide) (by decide) (by decide), h.1⟩

/-- C6: for a located (existing) block that is multi-line, the
single-line-format check returns exactly the one format error, whatever
the content; for a single-line block it returns exactly the one
empty-description error when the delimiter-stripped inner text is
empty or whitespace-only and no error otherwise — so the two errors never
occur together. -/
theorem c6_single_line_rule (info : JsDocInfo) (pt : String) (_hex : info.exists_ = true) :
    (info.isSingleLine = false →
       checkSingleLineJsDoc info pt =
         [pt ++ " should have single-line JSDoc (/** ... */), not multi-line"]) ∧
    (info.isSingleLine = true →
       checkSingleLineJsDoc info pt =
         (if jsTrimC (stripDocDelims info.content.data) = [] then
            [pt ++ " JSDoc is empty - add a description"]
          else [])) := by
  constructor
  · intro h
    simp [checkSingleLineJsDoc, h]
  · intro h
    by_cases hc : jsTrimC (stripDocDelims info.content.data) = []
    · simp [checkSingleLineJsDoc, h, hc]
    · simp [checkSingleLineJsDoc, h, hc]

/-- Witness for C6: a multi-line block on a signal yields exactly the
format error; an empty single-line block yields exactly the emptiness
error. -/
theorem c6_single_line_rule_witness :
    checkSingleLineJsDoc ⟨true, false, 0, 2, "/**\n * The state.\n */"⟩ "Signal" =
      ["Signal should have single-line JSDoc (/** ... */), not multi-line"] ∧
    checkSingleLineJsDoc ⟨true, true, 0, 0, "/**   */"⟩ "Signal" =
      ["Signal JSDoc is empty - add a description"] := by
  constructor
  · exact (c6_single_line_rule ⟨true, false, 0, 2, "/**\n * The state.\n */"⟩ "Signal" rfl).1 rfl
  · have h := (c6_single_line_rule ⟨true, true, 0, 0, "/**   */"⟩ "Signal" rfl).2 rfl
    rw [h]
    decide

theorem str_data_append (s t : String) : (s ++ t).data = s.data ++ t.data := rfl

theorem wordChar_bounds (c : Char) (h : wordChar c = true) :
    (48 ≤ c.toNat ∧ c.toNat ≤ 57) ∨ (65 ≤ c.toNat ∧ c.toNat ≤ 90) ∨
      (97 ≤ c.toNat ∧ c.toNat ≤ 122) ∨ c.toNat = 95 := by
  unfold wordChar at h
  simp only [Bool.or_eq_true, Bool.and_eq_true, decide_eq_true_eq] at h
  tauto

theorem wordChar_ne (c : Char) (h : wordChar c = true) (d : Char)
    (hd : d.toNat < 48 ∨ (57 < d.toNat ∧ d.toNat < 65) ∨ (90 < d.toNat ∧ d.toNat < 95) ∨
      d.toNat = 96 ∨ 122 < d.toNat) : c ≠ d := by
  intro he
  have h2 := congrArg Char.toNat he
  rcases wordChar_bounds c h with h1 | h1 | h1 | h1 <;> omega

theorem wordChar_not_ws (c : Char) (h : wordChar c = true) : jsWs c = false := by
  have hb := wordChar_bounds c h
  have hne : c.toNat ≠ 32 ∧ c.toNat ≠ 9 ∧ c.toNat ≠ 10 ∧ c.toNat ≠ 13 ∧
      c.toNat ≠ 11 ∧ c.toNat ≠ 12 := by
    rcases hb with h1 | h1 | h1 | h1 <;> omega
  unfold jsWs
  simp [hne.1, hne.2.1, hne.2.2.1, hne.2.2.2.1, hne.2.2.2.2.1, hne.2.2.2.2.2]

theorem ciEqc_iff (a b : Char) : ciEqc a b = true ↔
    (a = b ∨ (isUpperAscii a = true ∧ b.toNat = a.toNat + 32) ∨
      (isUpperAscii b = true ∧ a.toNat = b.toNat + 32)) := by
  unfold ciEqc
  simp [Bool.or_eq_true, Bool.and_eq_true, beq_iff_eq]
  tauto

theorem ciEqc_false_of (a b : Char) (h1 : a.toNat ≠ b.toNat)
    (h2 : b.toNat ≠ a.toNat + 32) (h3 : a.toNat ≠ b.toNat + 32) : ciEqc a b = false := by
  cases hx : ciEqc a b
  · rfl
  · exfalso
    rcases (ciEqc_iff a b).mp hx with he | ⟨_, he⟩ | ⟨_, he⟩
    · exact h1 (congrArg Char.toNat he)
    · exact h2 he
    · exact h3 he

theorem ciEqc_self (c : Char) : ciEqc c c = true := by
  unfold ciEqc
  simp

theorem listCiEq_refl : ∀ l : List Char, listCiEq l l = true := by
  intro l
  induction l with
  | nil => rfl
  | cons c r ih => simp [listCiEq, ciEqc_self, ih]

theorem ciEqc_word_space (c : Char) (h : wordChar c = true) : ciEqc c ' ' = false := by
  have hb := wordChar_bounds c h
  have hsp : (' ').toNat = 32 := rfl
  apply ciEqc_false_of <;> (rcases hb with h1 | h1 | h1 | h1 <;> omega)

theorem ciEqc_at_word (c : Char) (h : wordChar c = true) : ciEqc '@' c = false := by
  have hb := wordChar_bounds c h
  have hat : ('@').toNat = 64 := rfl
  apply ciEqc_false_of <;> (rcases hb with h1 | h1 | h1 | h1 <;> omega)

theorem ciEqc_bne (a b : Char) (h : ciEqc a b = false) : (a == b) = false := by
  cases hx : a == b
  · rfl
  · exfalso
    unfold ciEqc at h
    rw [hx] at h
    simp at h

theorem paramTailOk_word (d : Char) (L : List Char) (hd : wordChar d = true) :
    paramTailOk (d :: L) = false := by
  have h1 : d ≠ ']' := wordChar_ne d hd ']' (by decide)
  have h2 : paramTailOk (d :: L) = headIsWsOrDash (d :: L) := by
    unfold paramTailOk
    split
    · rename_i t heq
      injection heq with ha _
      exact absurd ha h1
    · rfl
  rw [h2]
  unfold headIsWsOrDash
  simp [wordChar_not_ws d hd, wordChar_ne d hd '-' (by decide)]

theorem skipLBracket_word (d : Char) (L : List Char) (hd : wordChar d = true) :
    skipLBracket (d :: L) = d :: L := by
  have h1 : d ≠ '[' := wordChar_ne d hd '[' (by decide)
  unfold skipLBracket
  split
  · rename_i t heq
    injection heq with ha _
    exact absurd ha h1
  · rfl

theorem takeUntilChar_append (stop : Char) (a b : List Char)
    (ha : ∀ c ∈ a, c ≠ stop) :
    takeUntilChar stop (a ++ stop :: b) = some (a, b) := by
  induction a with
  | nil => simp [takeUntilChar]
  | cons c t ih =>
      have hc : c ≠ stop := ha c (by simp)
      have hstep : takeUntilChar stop ((c :: t) ++ stop :: b) =
          (takeUntilChar stop (t ++ stop :: b)).map (fun pr => (c :: pr.1, pr.2)) := by
        rw [List.cons_append,
          show takeUntilChar stop (c :: (t ++ stop :: b)) =
            if c = stop then some ([], t ++ stop :: b)
            else (takeUntilChar stop (t ++ stop :: b)).map (fun pr => (c :: pr.1, pr.2)) from rfl,
          if_neg hc]
      rw [hstep, ih (fun x hx => ha x (by simp [hx]))]
      rfl

theorem dropWhile_ws_space (d : Char) (X : List Char) (hd : wordChar d = true) :
    (' ' :: d :: X).dropWhile jsWs = d :: X := by
  rw [List.dropWhile_cons, if_pos (by decide), List.dropWhile_cons,
    if_neg (by simp [wordChar_not_ws d hd])]

theorem takeWhile_word_append (a : List Char) (rest : List Char)
    (ha : a.all wordChar = true) :
    (a ++ ' ' :: rest).takeWhile wordChar = a ∧
      (a ++ ' ' :: rest).dropWhile wordChar = ' ' :: rest := by
  induction a with
  | nil =>
      constructor
      · rw [List.nil_append, List.takeWhile_cons, if_neg (by decide)]
      · rw [List.nil_append, List.dropWhile_cons, if_neg (by decide)]
  | cons c t ih =>
      simp only [List.all_cons, Bool.and_eq_true] at ha
      obtain ⟨hc, ht⟩ := ha
      have h2 := ih ht
      constructor
      · rw [List.cons_append, List.takeWhile_cons, if_pos hc, h2.1]
      · rw [List.cons_append, List.dropWhile_cons, if_pos hc, h2.2]

theorem nameStep_none (n : List Char) (X : Option (List Char)) :
    ∀ (mm rest : List Char), n.all wordChar = true → mm.all wordChar = true →
      listCiEq n mm = false →
      ((ciStrip n (mm ++ ' ' :: rest)).bind fun r5 =>
        if paramTailOk r5 then some X else none) = none := by
  induction n with
  | nil =>
      intro mm rest _ hm hci
      cases mm with
      | nil => exact absurd hci (by decide)
      | cons d ms =>
          have hd : wordChar d = true := by
            simp only [List.all_cons, Bool.and_eq_true] at hm
            exact hm.1
          show (if paramTailOk ((d :: ms) ++ ' ' :: rest) then some X else none) = none
          rw [List.cons_append, paramTailOk_word d _ hd]
          rfl
  | cons p ps ih =>
      intro mm rest hn hm hci
      simp only [List.all_cons, Bool.and_eq_true] at hn
      obtain ⟨hp, hps⟩ := hn
      cases mm with
      | nil =>
          rw [List.nil_append]
          rw [show ciStrip (p :: ps) (' ' :: rest) =
              if ciEqc p ' ' = true then ciStrip ps rest else none from rfl,
            if_neg (by simp [ciEqc_word_space p hp])]
          rfl
      | cons d ms =>
          simp only [List.all_cons, Bool.and_eq_true] at hm
          obtain ⟨hd, hms⟩ := hm
          rw [List.cons_append]
          by_cases he : ciEqc p d = true
          · rw [show ciStrip (p :: ps) (d :: (ms ++ ' ' :: rest)) =
                if ciEqc p d = true then ciStrip ps (ms ++ ' ' :: rest) else none from rfl,
              if_pos he]
            apply ih ms rest hps hms
            have : listCiEq (p :: ps) (d :: ms) = (ciEqc p d && listCiEq ps ms) := rfl
            rw [this, he] at hci
            simpa using hci
          · rw [show ciStrip (p :: ps) (d :: (ms ++ ' ' :: rest)) =
                if ciEqc p d = true then ciStrip ps (ms ++ ' ' :: rest) else none from rfl,
              if_neg he]
            rfl

theorem matchParamAt_not_at (name : List Char) (c : Char) (r : List Char)
    (hc : ciEqc '@' c = false) : matchParamAt name (c :: r) = none := by
  unfold matchParamAt
  rw [show ciStrip "@param".data (c :: r) = none by
    show ciStrip ('@' :: "param".data) (c :: r) = none
    rw [show ciStrip ('@' :: "param".data) (c :: r) =
        if ciEqc '@' c = true then ciStrip "param".data r else none from rfl,
      if_neg (by simp [hc])]]
  rfl

theorem searchParamTag_no_at (name : List Char) :
    ∀ s : List Char, (∀ c ∈ s, ciEqc '@' c = false) → searchParamTag name s = none := by
  intro s
  induction s with
  | nil => intro _; rfl
  | cons c r ih =>
      intro h
      rw [show searchParamTag name (c :: r) =
          (match matchParamAt name (c :: r) with
           | some g => some g
           | none => searchParamTag name r) from rfl,
        matchParamAt_not_at name c r (h c (by simp))]
      exact ih (fun x hx => h x (by simp [hx]))

theorem searchParamTag_append_no_at (name : List Char) :
    ∀ (a s : List Char), (∀ c ∈ a, ciEqc '@' c = false) →
      searchParamTag name (a ++ s) = searchParamTag name s := by
  intro a
  induction a with
  | nil => intro s _; rfl
  | cons c t ih =>
      intro s h
      rw [List.cons_append]
      rw [show searchParamTag name (c :: (t ++ s)) =
          (match matchParamAt name (c :: (t ++ s)) with
           | some g => some g
           | none => searchParamTag name (t ++ s)) from rfl,
        matchParamAt_not_at name c _ (h c (by simp))]
      exact ih s (fun x hx => h x (by simp [hx]))

theorem isIdentStr_spec (s : String) (h : isIdentStr s = true) :
    s.data ≠ [] ∧ s.data.all wordChar = true := by
  unfold isIdentStr at h
  simp only [Bool.and_eq_true, Bool.not_eq_true'] at h
  refine ⟨?_, h.2⟩
  intro he
  have h1 := h.1
  rw [he] at h1
  simp at h1

theorem searchParamTag_mkParamDoc (n τ m : String)
    (hn : isIdentStr n = true) (hm : isIdentStr m = true) (hτ : isIdentStr τ = true)
    (hci : listCiEq n.data m.data = false) :
    searchParamTag n.data (mkParamDoc τ m).data = none := by
  obtain ⟨hn1, hn2⟩ := isIdentStr_spec n hn
  obtain ⟨hm1, hm2⟩ := isIdentStr_spec m hm
  obtain ⟨hτ1, hτ2⟩ := isIdentStr_spec τ hτ
  obtain ⟨d, ms, hmd⟩ := List.exists_cons_of_ne_nil hm1
  have hm2' := hm2
  rw [hmd] at hm2'
  simp only [List.all_cons, Bool.and_eq_true] at hm2'
  obtain ⟨hdw, hmsw⟩ := hm2'
  have hτne : ∀ c ∈ τ.data, c ≠ '\x7d' :=
    fun c hc => wordChar_ne c (List.all_eq_true.mp hτ2 c hc) '\x7d' (by decide)
  have hdoc : (mkParamDoc τ m).data =
      "/**\n * Description.\n * ".data ++
        ('@' :: 'p' :: 'a' :: 'r' :: 'a' :: 'm' :: ' ' :: '\x7b' ::
          (τ.data ++ ('\x7d' :: ' ' :: (m.data ++ " - the value\n */".data)))) := by
    unfold mkParamDoc
    rw [str_data_append, str_data_append, str_data_append, str_data_append]
    rw [show ("/**\n * Description.\n * @param \x7b").data =
        "/**\n * Description.\n * ".data ++ ['@', 'p', 'a', 'r', 'a', 'm', ' ', '\x7b'] from
        by decide]
    rw [show ("\x7d ").data = ['\x7d', ' '] from by decide]
    simp [List.append_assoc]
  rw [hdoc, searchParamTag_append_no_at n.data _ _ (by decide)]
  have hA : matchParamAt n.data
      ('@' :: 'p' :: 'a' :: 'r' :: 'a' :: 'm' :: ' ' :: '\x7b' ::
        (τ.data ++ ('\x7d' :: ' ' :: (m.data ++ " - the value\n */".data)))) = none := by
    unfold matchParamAt
    rw [show ciStrip "@param".data
        ('@' :: 'p' :: 'a' :: 'r' :: 'a' :: 'm' :: ' ' :: '\x7b' ::
          (τ.data ++ ('\x7d' :: ' ' :: (m.data ++ " - the value\n */".data)))) =
        some (' ' :: '\x7b' ::
          (τ.data ++ ('\x7d' :: ' ' :: (m.data ++ " - the value\n */".data)))) from rfl]
    rw [Option.some_bind]
    rw [show ((' ' :: '\x7b' ::
        (τ.data ++ ('\x7d' :: ' ' :: (m.data ++ " - the value\n */".data)))).takeWhile jsWs) =
        [' '] from rfl]
    rw [if_neg (by decide)]
    rw [show ((' ' :: '\x7b' ::
        (τ.data ++ ('\x7d' :: ' ' :: (m.data ++ " - the value\n */".data)))).dropWhile jsWs) =
        '\x7b' :: (τ.data ++ ('\x7d' :: ' ' :: (m.data ++ " - the value\n */".data))) from rfl]
    rw [show braceGroup ('\x7b' ::
        (τ.data ++ ('\x7d' :: ' ' :: (m.data ++ " - the value\n */".data)))) =
        (takeUntilChar '\x7d'
          (τ.data ++ ('\x7d' :: ' ' :: (m.data ++ " - the value\n */".data)))).map
          (fun pr => (some ('\x7b' :: pr.1 ++ ['\x7d']), pr.2)) from rfl]
    rw [takeUntilChar_append '\x7d' τ.data _ hτne]
    rw [Option.map_some', Option.some_bind]
    rw [hmd]
    rw [show ((' ' :: (d :: ms ++ " - the value\n */".data)) : List Char) =
        ' ' :: d :: (ms ++ " - the value\n */".data) from by simp]
    rw [dropWhile_ws_space d _ hdw, skipLBracket_word d _ hdw]
    rw [show (" - the value\n */").data = ' ' :: ("- the value\n */").data from by decide]
    rw [show (d :: (ms ++ ' ' :: ("- the value\n */").data) : List Char) =
        ((d :: ms) ++ ' ' :: ("- the value\n */").data) from by simp]
    have hci' : listCiEq n.data (d :: ms) = false := by
      rw [hmd] at hci
      exact hci
    exact nameStep_none n.data _ (d :: ms) _ hn2 (by rw [← hmd]; exact hm2) hci'
  rw [show searchParamTag n.data
      ('@' :: 'p' :: 'a' :: 'r' :: 'a' :: 'm' :: ' ' :: '\x7b' ::
        (τ.data ++ ('\x7d' :: ' ' :: (m.data ++ " - the value\n */".data)))) =
      (match matchParamAt n.data
        ('@' :: 'p' :: 'a' :: 'r' :: 'a' :: 'm' :: ' ' :: '\x7b' ::
          (τ.data ++ ('\x7d' :: ' ' :: (m.data ++ " - the value\n */".data)))) with
       | some g => some g
       | none => searchParamTag n.data
          ('p' :: 'a' :: 'r' :: 'a' :: 'm' :: ' ' :: '\x7b' ::
            (τ.data ++ ('\x7d' :: ' ' :: (m.data ++ " - the value\n */".data))))) from rfl]
  rw [hA]
  rw [show ('p' :: 'a' :: 'r' :: 'a' :: 'm' :: ' ' :: '\x7b' ::
      (τ.data ++ ('\x7d' :: ' ' :: (m.data ++ " - the value\n */".data)))) =
      "param \x7b".data ++ (τ.data ++ ('\x7d' :: ' ' :: (m.data ++ " - the value\n */".data)))
      from rfl]
  rw [searchParamTag_append_no_at n.data _ _ (by decide)]
  rw [searchParamTag_append_no_at n.data _ _
    (fun c hc => ciEqc_at_word c (List.all_eq_true.mp hτ2 c hc))]
  rw [show ('\x7d' :: ' ' :: (m.data ++ " - the value\n */".data)) =
      ['\x7d', ' '] ++ (m.data ++ " - the value\n */".data) from rfl]
  rw [searchParamTag_append_no_at n.data _ _ (by decide)]
  rw [searchParamTag_append_no_at n.data _ _
    (fun c hc => ciEqc_at_word c (List.all_eq_true.mp hm2 c hc))]
  exact searchParamTag_no_at n.data _ (by decide)

theorem matchGlobalAt_not_at (c : Char) (r : List Char) (hc : ciEqc '@' c = false) :
    matchGlobalAt (c :: r) = none := by
  unfold matchGlobalAt
  rw [if_neg ?hneg]
  case hneg =>
    rw [show ("@param".data.isPrefixOf (c :: r)) = (('@' == c) && "param".data.isPrefixOf r)
        from rfl,
      ciEqc_bne '@' c hc]
    simp

theorem matchAllGo_step (k : Nat) (c : Char) (r : List Char) :
    matchAllParamsGo (k + 1) (c :: r) =
      (match matchGlobalAt (c :: r) with
       | some (w, rest) => (⟨w⟩ : String) :: matchAllParamsGo k rest
       | none => matchAllParamsGo k r) := rfl

theorem matchAllGo_no_at :
    ∀ (fuel : Nat) (s : List Char), (∀ c ∈ s, ciEqc '@' c = false) →
      matchAllParamsGo fuel s = [] := by
  intro fuel
  induction fuel with
  | zero => intro s _; rfl
  | succ f ih =>
      intro s h
      cases s with
      | nil => rfl
      | cons c r =>
          rw [show matchAllParamsGo (f + 1) (c :: r) =
              (match matchGlobalAt (c :: r) with
               | some (w, rest) => (⟨w⟩ : String) :: matchAllParamsGo f rest
               | none => matchAllParamsGo f r) from rfl,
            matchGlobalAt_not_at c r (h c (by simp))]
          exact ih r (fun x hx => h x (by simp [hx]))

theorem matchAllGo_append_no_at :
    ∀ (a s : List Char) (k : Nat), (∀ c ∈ a, ciEqc '@' c = false) →
      matchAllParamsGo (a.length + k) (a ++ s) = matchAllParamsGo k s := by
  intro a
  induction a with
  | nil => intro s k _; simp
  | cons c t ih =>
      intro s k h
      rw [List.cons_append, List.length_cons, Nat.add_right_comm]
      rw [show matchAllParamsGo (t.length + k + 1) (c :: (t ++ s)) =
          (match matchGlobalAt (c :: (t ++ s)) with
           | some (w, rest) => (⟨w⟩ : String) :: matchAllParamsGo (t.length + k) rest
           | none => matchAllParamsGo (t.length + k) (t ++ s)) from rfl,
        matchGlobalAt_not_at c _ (h c (by simp))]
      exact ih s k (fun x hx => h x (by simp [hx]))

theorem matchGlobalAt_template (τ m : String) (d : Char) (ms : List Char)
    (hmd : m.data = d :: ms) (hdw : wordChar d = true)
    (hm2 : m.data.all wordChar = true)
    (hτne : ∀ c ∈ τ.data, c ≠ '\x7d') :
    matchGlobalAt ('@' :: 'p' :: 'a' :: 'r' :: 'a' :: 'm' :: ' ' :: '\x7b' ::
        (τ.data ++ ('\x7d' :: ' ' :: (m.data ++ " - the value\n */".data)))) =
      some (m.data, ' ' :: ("- the value\n */").data) := by
  unfold matchGlobalAt
  rw [if_pos (show ("@param".data.isPrefixOf
      ('@' :: 'p' :: 'a' :: 'r' :: 'a' :: 'm' :: ' ' :: '\x7b' ::
        (τ.data ++ ('\x7d' :: ' ' :: (m.data ++ " - the value\n */".data))))) = true
      from rfl)]
  rw [show (('@' :: 'p' :: 'a' :: 'r' :: 'a' :: 'm' :: ' ' :: '\x7b' ::
      (τ.data ++ ('\x7d' :: ' ' :: (m.data ++ " - the value\n */".data)))).drop 6) =
      ' ' :: '\x7b' :: (τ.data ++ ('\x7d' :: ' ' :: (m.data ++ " - the value\n */".data)))
      from rfl]
  rw [show ((' ' :: '\x7b' ::
      (τ.data ++ ('\x7d' :: ' ' :: (m.data ++ " - the value\n */".data)))).dropWhile jsWs) =
      '\x7b' :: (τ.data ++ ('\x7d' :: ' ' :: (m.data ++ " - the value\n */".data))) from rfl]
  rw [show braceGroup ('\x7b' ::
      (τ.data ++ ('\x7d' :: ' ' :: (m.data ++ " - the value\n */".data)))) =
      (takeUntilChar '\x7d'
        (τ.data ++ ('\x7d' :: ' ' :: (m.data ++ " - the value\n */".data)))).map
        (fun pr => (some ('\x7b' :: pr.1 ++ ['\x7d']), pr.2)) from rfl]
  rw [takeUntilChar_append '\x7d' τ.data _ hτne]
  rw [Option.map_some', Option.some_bind]
  rw [hmd]
  rw [show ((' ' :: (d :: ms ++ " - the value\n */".data)) : List Char) =
      ' ' :: d :: (ms ++ " - the value\n */".data) from by simp]
  rw [dropWhile_ws_space d _ hdw, skipLBracket_word d _ hdw]
  rw [show (" - the value\n */").data = ' ' :: ("- the value\n */").data from by decide]
  rw [show (d :: (ms ++ ' ' :: ("- the value\n */").data) : List Char) =
      ((d :: ms) ++ ' ' :: ("- the value\n */").data) from by simp]
  have hall : (d :: ms).all wordChar = true := by rw [← hmd]; exact hm2
  dsimp only
  rw [(takeWhile_word_append (d :: ms) _ hall).1, (takeWhile_word_append (d :: ms) _ hall).2]
  rw [if_neg (by simp)]
  rfl

theorem mkParamDoc_data (τ m : String) :
    (mkParamDoc τ m).data =
      "/**\n * Description.\n * ".data ++
        ('@' :: 'p' :: 'a' :: 'r' :: 'a' :: 'm' :: ' ' :: '\x7b' ::
          (τ.data ++ ('\x7d' :: ' ' :: (m.data ++ " - the value\n */".data)))) := by
  unfold mkParamDoc
  rw [str_data_append, str_data_append, str_data_append, str_data_append]
  rw [show ("/**\n * Description.\n * @param \x7b").data =
      "/**\n * Description.\n * ".data ++ ['@', 'p', 'a', 'r', 'a', 'm', ' ', '\x7b'] from
      by decide]
  rw [show ("\x7d ").data = ['\x7d', ' '] from by decide]
  simp [List.append_assoc]

theorem jsDocParamNames_mkParamDoc (τ m : String)
    (hm : isIdentStr m = true) (hτ : isIdentStr τ = true) :
    jsDocParamNames (mkParamDoc τ m) = [m] := by
  obtain ⟨hm1, hm2⟩ := isIdentStr_spec m hm
  obtain ⟨hτ1, hτ2⟩ := isIdentStr_spec τ hτ
  obtain ⟨d, ms, hmd⟩ := List.exists_cons_of_ne_nil hm1
  have hm2' := hm2
  rw [hmd] at hm2'
  simp only [List.all_cons, Bool.and_eq_true] at hm2'
  obtain ⟨hdw, _⟩ := hm2'
  have hτne : ∀ c ∈ τ.data, c ≠ '\x7d' :=
    fun c hc => wordChar_ne c (List.all_eq_true.mp hτ2 c hc) '\x7d' (by decide)
  unfold jsDocParamNames
  rw [mkParamDoc_data, List.length_append]
  rw [matchAllGo_append_no_at "/**\n * Description.\n * ".data _ _ (by decide)]
  rw [List.length_cons]
  rw [matchAllGo_step]
  rw [matchGlobalAt_template τ m d ms hmd hdw hm2 hτne]
  dsimp only
  rw [matchAllGo_no_at _ (' ' :: ("- the value\n */").data) (by decide)]

/-- C4 (amended): for a method with exactly one non-destructured parameter
`n` and a well-formed documentation block whose only parameter tag names a
different identifier `m` that is not merely a letter-case variant of `n`
(the per-parameter lookup regex carries the `i` flag, so a case variant
still satisfies it), the check reports exactly two errors, in order: the
missing-`@param` error for `n` and the extra-`@param` error for `m`. -/
theorem c4_renamed_param (n m τ : String)
    (hn : isIdentStr n = true) (hm : isIdentStr m = true) (hτ : isIdentStr τ = true)
    (hnd : n ≠ "destructured")
    (hci : listCiEq n.data m.data = false) :
    checkParamTags (mkParamDoc τ m) [⟨n, τ⟩] =
      ⟨false, ["Missing @param for \x27" ++ n ++ "\x27",
        "Extra @param \x27" ++ m ++ "\x27 in JSDoc doesn\x27t match any function parameter"]⟩ := by
  have hnm : n ≠ m := by
    intro he
    rw [he, listCiEq_refl] at hci
    cases hci
  have hbe : (m == n) = false := beq_eq_false_iff_ne.mpr (Ne.symm hnm)
  have h1 := searchParamTag_mkParamDoc n τ m hn hm hτ hci
  have h2 := jsDocParamNames_mkParamDoc τ m hm hτ
  simp only [checkParamTags, List.length_cons, List.length_nil, List.foldl_cons,
    List.foldl_nil, h1, h2, List.filter_cons, List.filter_nil, List.map_cons, List.map_nil]
  rw [if_neg (by simp)]
  simp [hnd, hbe, List.contains, List.elem]
  refine ⟨?_, Ne.symm hnm⟩
  rw [if_neg (Ne.symm hnm)]
  simp

/-- C4 counterexample: with the single parameter `amount` and a
documentation block whose only tag names the case-variant `Amount`, the
check does not report the claimed missing-plus-extra pair: the
case-insensitive per-parameter regex accepts `Amount` for `amount`, so
only the extra-`@param` error is produced. -/
theorem c4_counterexample :
    checkParamTags (mkParamDoc "number" "Amount") [⟨"amount", "number"⟩] =
      ⟨false, ["Extra @param \x27Amount\x27 in JSDoc doesn\x27t match any function parameter"]⟩ ∧
    (checkParamTags (mkParamDoc "number" "Amount") [⟨"amount", "number"⟩]).errors ≠
      ["Missing @param for \x27amount\x27",
       "Extra @param \x27Amount\x27 in JSDoc doesn\x27t match any function parameter"] := by
  constructor
  · rfl
  · decide

/-- Witness for C4's amended theorem at `n = amount`, `m = total`,
type `number`. -/
theorem c4_renamed_param_witness :
    checkParamTags (mkParamDoc "number" "total") [⟨"amount", "number"⟩] =
      ⟨false, ["Missing @param for \x27amount\x27",
        "Extra @param \x27total\x27 in JSDoc doesn\x27t match any function parameter"]⟩ := by
  exact c4_renamed_param "amount" "total" "number" (by decide) (by decide) (by decide)
    (by decide) (by decide)

/-- C1: on the specified 20-line scenario (single hunk `@@ -5,0 +5,3 @@`,
changed range {5,7}, `console.log(x)` at line 6, undocumented
`private computeTotal(amount: number): number {` at line 10) the claim and
the spec expect exactly 2 violations. The shipped diff-scoped scanner
`src/scripts/generate-pr-comments.js` returns early from its per-line
callback on every line outside the changed range {5..7}, so its
`isNearChangedLine` method check can never fire on line 10 and it emits
only the debug violation at line 6; the enhanced variant in
`src/unnamed/part_001`, whose declaration pass is guarded by the
near-changed window alone, emits exactly the claimed two violations (the
debug one at line 6 and the missing-documentation one at line 10), with no
access-modifier and no return-type violation at line 10. So the claimed
behaviour holds for the enhanced variant but not for the shipped script:
the shipped script's dead near-changed window is a code bug. -/
theorem c1_scenario :
    c1Lines.length = 20 ∧
    getChangedLineRanges c1Diff = [⟨5, 7⟩] ∧
    GenPr.checkTypeScriptFile "src/app.ts" c1Lines (getChangedLineRanges c1Diff) =
      [⟨"src/app.ts", 6, "⚠️ **Code Standard Violation**: `console.log()` should not be in production code. Use a logging service instead."⟩] ∧
    Enh.checkTypeScriptFile "src/app.ts" c1Lines (getChangedLineRanges c1Diff) =
      [⟨"src/app.ts", 6, "⚠️ **Code Standard Violation**: `console.log()` should not be in production code. Use a logging service instead."⟩,
       ⟨"src/app.ts", 10, "📚 **Missing JSDoc**: Methods require proper JSDoc documentation with description, @param tags, and @returns."⟩] :=
  ⟨rfl, rfl, rfl, rfl⟩

/-- C7: the two scanners disagree on failure isolation. In the generator
(`generate-pr-comments.js`) both failure modes are caught locally — a
file whose diff spawn fails yields no ranges and is skipped, and a file
whose read fails contributes no comments — so removing such a file from
the changed-file list leaves the scan of every other file intact. The
CLI scanner (`check-code-standards.js`) has no such guard: the
`fs.readFileSync` in `checkFile` sits outside any `try`, so one
unreadable file (`bad.ts` below) aborts the whole `forEach` and the
remaining files are never checked, refuting the claim for that entry
point. -/
theorem c7_failure_isolation (env : Env) (xs ys : List String) (f : String)
    (hf : env.read f = none ∨ env.diff f = none) :
    GenPr.scanTsFiles env (xs ++ f :: ys) = GenPr.scanTsFiles env (xs ++ ys) ∧
    Cli.run envC7 ["a.ts", "bad.ts", "c.ts"] = none ∧
    Cli.run envC7 ["a.ts", "c.ts"] = some false := by
  refine ⟨?_, by decide, by decide⟩
  induction xs with
  | nil =>
      show GenPr.scanTsFiles env (f :: ys) = GenPr.scanTsFiles env ys
      simp only [GenPr.scanTsFiles]
      by_cases hs :
          (!strEndsWith f ".ts" || strEndsWith f ".spec.ts" ||
            strEndsWith f ".stories.ts") = true
      · rw [if_pos hs]
      · rw [if_neg hs]
        rcases hf with hr | hd
        · by_cases he : (getChangedLineRangesE env f).isEmpty = true
          · rw [if_pos he]
          · rw [if_neg he]
            rw [show GenPr.checkTypeScriptFileE env f (getChangedLineRangesE env f) =
                (match env.read f with
                 | none => []
                 | some content =>
                     GenPr.checkTypeScriptFile f (splitLines content)
                       (getChangedLineRangesE env f)) from rfl, hr]
            rfl
        · rw [show getChangedLineRangesE env f =
              (match env.diff f with
               | none => ([] : List LineRange)
               | some d => getChangedLineRanges d) from rfl, hd]
          rfl
  | cons x xs ih =>
      show GenPr.scanTsFiles env (x :: (xs ++ f :: ys)) =
        GenPr.scanTsFiles env (x :: (xs ++ ys))
      simp only [GenPr.scanTsFiles]
      rw [ih]

/-- The C7 theorem applied with the unreadable file `bad.ts` inserted
after `a.ts`. -/
theorem c7_failure_isolation_witness :
    GenPr.scanTsFiles envC7 ["a.ts", "bad.ts"] = GenPr.scanTsFiles envC7 ["a.ts"] ∧
    Cli.run envC7 ["a.ts", "bad.ts", "c.ts"] = none :=
  ⟨(c7_failure_isolation envC7 ["a.ts"] [] "bad.ts" (Or.inl rfl)).1,
   (c7_failure_isolation envC7 ["a.ts"] [] "bad.ts" (Or.inl rfl)).2.1⟩

/-- C8: on a non-empty violation list `postReview` sends a review whose
inline comments are the 1:1 `RIGHT`-side images of the violations,
truncated to the first 30 (so never more than 30); when the review
request fails it falls back to a single summary comment instead of
aborting; and on an empty list nothing is posted. -/
theorem c8_post_review (comments : List PrComment) (hne : comments ≠ []) :
    postReview true comments =
      ReviewOutcome.review
        ("## 🔍 Code Standards Review\n\nFound " ++ toString comments.length ++
          " violation(s) that need to be resolved. See inline comments below.")
        ((comments.map toReviewComment).take 30) ∧
    ((comments.map toReviewComment).take 30).length ≤ 30 ∧
    (comments.map toReviewComment).length = comments.length ∧
    (∀ c ∈ comments, toReviewComment c = ⟨c.path, c.line, "RIGHT", c.body⟩) ∧
    postReview false comments =
      ReviewOutcome.fallback
        ("## 🔍 Code Standards Violations\n\nFound " ++ toString comments.length ++
          " violations. Check logs for details.") ∧
    postReview true [] = ReviewOutcome.noAction := by
  have hlen : 0 < comments.length := List.length_pos.mpr hne
  refine ⟨?_, ?_, ?_, fun c _ => rfl, ?_, rfl⟩
  · unfold postReview
    rw [if_pos hlen, if_pos rfl]
  · rw [List.length_take]
    exact min_le_left _ _
  · exact List.length_map _ _
  · unfold postReview
    rw [if_pos hlen, if_neg (by simp)]

/-- The C8 theorem applied at a concrete two-violation list. -/
theorem c8_post_review_witness :
    postReview true [⟨"a.ts", 1, "x"⟩, ⟨"b.ts", 2, "y"⟩] =
      ReviewOutcome.review
        ("## 🔍 Code Standards Review\n\nFound " ++ toString (2 : Nat) ++
          " violation(s) that need to be resolved. See inline comments below.")
        [⟨"a.ts", 1, "RIGHT", "x"⟩, ⟨"b.ts", 2, "RIGHT", "y"⟩] ∧
    postReview false [⟨"a.ts", 1, "x"⟩, ⟨"b.ts", 2, "y"⟩] =
      ReviewOutcome.fallback
        ("## 🔍 Code Standards Violations\n\nFound " ++ toString (2 : Nat) ++
          " violations. Check logs for details.") :=
  ⟨(c8_post_review [⟨"a.ts", 1, "x"⟩, ⟨"b.ts", 2, "y"⟩] (by decide)).1,
   (c8_post_review [⟨"a.ts", 1, "x"⟩, ⟨"b.ts", 2, "y"⟩] (by decide)).2.2.2.2.1⟩


end CIStd
